import Mathlib

/-!
Verification development for the elevenlabs-voice-isolator pipeline.

The repository is a three-stage orchestration (extract audio from a video,
isolate the voice through a remote service, merge the cleaned audio back)
with a single-item pipeline, a batch runner and a CLI entry point.  The
Python source is embedded shallowly below: paths become a structure of
directory segments, stem and extension; the filesystem becomes an
association list of files plus a list of directories; the external
delegates (the ffmpeg subprocess and the ElevenLabs network client) become
an oracle, and every delegate invocation is recorded in a call trace.
-/

namespace VoiceIsolator

/-- A filesystem path, mirroring the pathlib fields the source uses:
parent directory segments, filename stem, and extension (with leading dot). -/
structure FP where
  dir : List String
  stem : String
  ext : String
deriving DecidableEq, Repr

/-- Path.name: the filename, stem plus extension. -/
def FP.name (p : FP) : String := p.stem ++ p.ext

/-- Path.with_stem: replace the stem, keep directory and extension. -/
def FP.withStem (p : FP) (s : String) : FP := { p with stem := s }

/-- Path.with_suffix: replace the extension. -/
def FP.withSuffix (p : FP) (e : String) : FP := { p with ext := e }

/-- View a path as a directory: its full segment list. -/
def FP.asDir (p : FP) : List String := p.dir ++ [p.name]

/-- str.lower, as used on filename extensions. -/
def lower (s : String) : String := ⟨s.data.map Char.toLower⟩

/-- Boolean test that the first segment list is an initial run of the second:
`isUnder t d` holds when directory `d` is `t` itself or lies below `t`. -/
def isUnder : List String → List String → Bool
  | [], _ => true
  | _ :: _, [] => false
  | a :: as, b :: bs => a == b && isUnder as bs

/-- Look a path up in an association list of files. -/
def lookupFile : List (FP × List Nat) → FP → Option (List Nat)
  | [], _ => none
  | e :: es, p => if e.1 = p then some e.2 else lookupFile es p

/-- Remove every entry at the given path. -/
def removeFile : List (FP × List Nat) → FP → List (FP × List Nat)
  | [], _ => []
  | e :: es, p => if e.1 = p then removeFile es p else e :: removeFile es p

/-- Remove every entry whose directory is at or below `t`. -/
def eraseUnder : List (FP × List Nat) → List String → List (FP × List Nat)
  | [], _ => []
  | e :: es, t => if isUnder t e.1.dir then eraseUnder es t else e :: eraseUnder es t

/-- The filesystem: files (path to byte content) and explicitly created
directories. -/
structure FS where
  files : List (FP × List Nat)
  dirs : List (List String)
deriving Repr, DecidableEq

/-- Content of the file at `p`, if present. -/
def FS.read (fs : FS) (p : FP) : Option (List Nat) := lookupFile fs.files p

/-- Path.is_file / Path.exists for a file path. -/
def FS.fileExists (fs : FS) (p : FP) : Bool := (fs.read p).isSome

/-- Write (create or replace) the file at `p`. -/
def FS.write (fs : FS) (p : FP) (c : List Nat) : FS :=
  { fs with files := (p, c) :: removeFile fs.files p }

/-- Path.mkdir. -/
def FS.mkdir (fs : FS) (d : List String) : FS := { fs with dirs := d :: fs.dirs }

/-- Path.is_dir: the directory was created explicitly or contains a file. -/
def FS.isDir (fs : FS) (d : List String) : Bool :=
  fs.dirs.contains d || fs.files.any (fun e => isUnder d e.1.dir)

/-- tempfile.TemporaryDirectory teardown: delete everything under `t`. -/
def FS.eraseDir (fs : FS) (t : List String) : FS :=
  { fs with files := eraseUnder fs.files t }

/-- The same files under a different created-directory record; used to
state that an operation ignores the directory record. -/
def FS.withDirs (fs : FS) (D : List (List String)) : FS := ⟨fs.files, D⟩

/-- Error taxonomy of the source: FileNotFoundError, NotADirectoryError,
the ValueError raised for a missing credential, ffmpeg.Error, the
exceptions the ElevenLabs client raises, and OS errors from shutil. -/
inductive Err where
  | notFound (p : FP)
  | notADirectory (d : List String)
  | configError
  | toolError (msg : String)
  | serviceError (msg : String)
  | osError
deriving DecidableEq, Repr

/-- One external delegate invocation: an ffmpeg subprocess (recording
whether the -y overwrite flag was passed) or a network call to the
isolation client (recording the credential used). -/
inductive Call where
  | subprocess (yFlag : Bool)
  | network (key : String)
deriving DecidableEq, Repr

/-- Behaviour of the external world: what ffmpeg extraction produces from
given video bytes, which chunk stream the isolation service returns for a
credential and audio bytes, what ffmpeg muxing produces, and whether a
shutil.copy2 from one path to another fails at the OS level. -/
structure Oracle where
  extractResult : List Nat → Except String (List Nat)
  isolateChunks : String → List Nat → Except String (List (List Nat))
  mergeResult : List Nat → List Nat → Except String (List Nat)
  copyFails : FP → FP → Bool

/-- Equality of stage outcomes is decidable, so concrete runs can be
checked by evaluation. -/
instance {ε α : Type} [DecidableEq ε] [DecidableEq α] : DecidableEq (Except ε α) :=
  fun x y =>
    match x, y with
    | .ok a, .ok b =>
      if h : a = b then .isTrue (by rw [h])
      else .isFalse (by intro hh; cases hh; exact h rfl)
    | .error a, .error b =>
      if h : a = b then .isTrue (by rw [h])
      else .isFalse (by intro hh; cases hh; exact h rfl)
    | .ok _, .error _ => .isFalse (by intro hh; cases hh)
    | .error _, .ok _ => .isFalse (by intro hh; cases hh)

/-- Result of one stage call: the returned path or raised error, the
filesystem afterwards, and the external calls performed. -/
structure StageOut where
  res : Except Err FP
  fs : FS
  calls : List Call
deriving Repr, DecidableEq

/-- extract_audio_from_video (video/extractor.py).  Checks the input
exists, resolves the default output by replacing the extension, and runs
ffmpeg with the unconditional -y flag. -/
def extract_audio_from_video (ω : Oracle) (fs : FS) (video_path : FP)
    (output_path : Option FP := none) (audio_format : String := "mp3") : StageOut :=
  match fs.read video_path with
  | none => ⟨.error (.notFound video_path), fs, []⟩
  | some content =>
    let out := output_path.getD (video_path.withSuffix ("." ++ audio_format))
    match ω.extractResult content with
    | .error m => ⟨.error (.toolError m), fs, [.subprocess true]⟩
    | .ok audio => ⟨.ok out, fs.write out audio, [.subprocess true]⟩

/-- isolate_voice (audio/isolator.py).  Checks the input exists, resolves
the default output by appending _isolated to the stem, resolves the
credential (environment consulted only when the parameter is None, and the
falsiness check rejects unset or empty environment values), then streams
the chunk sequence from the client to the output file in order. -/
def isolate_voice (ω : Oracle) (env : Option String) (fs : FS) (audio_path : FP)
    (output_path : Option FP := none) (api_key : Option String := none) : StageOut :=
  match fs.read audio_path with
  | none => ⟨.error (.notFound audio_path), fs, []⟩
  | some content =>
    let out := output_path.getD (audio_path.withStem (audio_path.stem ++ "_isolated"))
    match api_key with
    | none =>
      match env with
      | none => ⟨.error .configError, fs, []⟩
      | some k =>
        if k = "" then ⟨.error .configError, fs, []⟩
        else
          match ω.isolateChunks k content with
          | .error m => ⟨.error (.serviceError m), fs, [.network k]⟩
          | .ok chunks => ⟨.ok out, fs.write out chunks.flatten, [.network k]⟩
    | some k =>
      match ω.isolateChunks k content with
      | .error m => ⟨.error (.serviceError m), fs, [.network k]⟩
      | .ok chunks => ⟨.ok out, fs.write out chunks.flatten, [.network k]⟩

/-- merge_video_with_audio (video/merger.py).  Checks both inputs exist,
resolves the default output by appending _clean to the video stem, renames
the destination with a _new stem suffix when it exists and overwrite is
false, then runs ffmpeg, passing -y exactly when overwrite was requested;
without -y ffmpeg refuses to replace an existing output file. -/
def merge_video_with_audio (ω : Oracle) (fs : FS) (video_path audio_path : FP)
    (output_path : Option FP := none) (video_codec : String := "copy")
    (audio_codec : String := "aac") (audio_bitrate : String := "192k")
    (overwrite : Bool := false) : StageOut :=
  match fs.read video_path with
  | none => ⟨.error (.notFound video_path), fs, []⟩
  | some vbytes =>
    match fs.read audio_path with
    | none => ⟨.error (.notFound audio_path), fs, []⟩
    | some abytes =>
      let out0 := output_path.getD (video_path.withStem (video_path.stem ++ "_clean"))
      let out := if fs.fileExists out0 && !overwrite
                 then out0.withStem (out0.stem ++ "_new") else out0
      if fs.fileExists out && !overwrite then
        ⟨.error (.toolError "output file already exists"), fs, [.subprocess overwrite]⟩
      else
        match ω.mergeResult vbytes abytes with
        | .error m => ⟨.error (.toolError m), fs, [.subprocess overwrite]⟩
        | .ok merged => ⟨.ok out, fs.write out merged, [.subprocess overwrite]⟩

/-- process_video (processor.py).  Checks the source exists, resolves the
default output by appending _clean to the stem, then runs the three stages
through a scoped temporary directory `tmp` (the unique directory that
tempfile.TemporaryDirectory creates), copying the two intermediates to a
temp_files sibling directory of the source when keep_temp_files was
requested (the copy is unguarded: a failing copy raises), and tears the
temporary scope down on every exit path. -/
def process_video (ω : Oracle) (env : Option String) (tmp : List String) (fs : FS)
    (video_path : FP) (output_path : Option FP := none) (keep_temp_files : Bool := false)
    (api_key : Option String := none) (video_codec : String := "copy")
    (overwrite : Bool := false) : StageOut :=
  if fs.fileExists video_path then
    let out := output_path.getD (video_path.withStem (video_path.stem ++ "_clean"))
    let extractedPath : FP := ⟨tmp, video_path.stem, ".mp3"⟩
    let e := extract_audio_from_video ω fs video_path (some extractedPath)
    match e.res with
    | .error err => ⟨.error err, e.fs.eraseDir tmp, e.calls⟩
    | .ok ep =>
      let isoPath : FP := ⟨tmp, video_path.stem ++ "_isolated", ".mp3"⟩
      let i := isolate_voice ω env e.fs ep (some isoPath) api_key
      match i.res with
      | .error err => ⟨.error err, i.fs.eraseDir tmp, e.calls ++ i.calls⟩
      | .ok ip =>
        let m := merge_video_with_audio ω i.fs video_path ip (some out)
                   video_codec "aac" "192k" overwrite
        match m.res with
        | .error err => ⟨.error err, m.fs.eraseDir tmp, e.calls ++ i.calls ++ m.calls⟩
        | .ok fp =>
          if keep_temp_files then
            let tdir := video_path.dir ++ ["temp_files"]
            let fs1 := m.fs.mkdir tdir
            let d1 : FP := ⟨tdir, ep.stem, ep.ext⟩
            if ω.copyFails ep d1 then
              ⟨.error .osError, fs1.eraseDir tmp, e.calls ++ i.calls ++ m.calls⟩
            else
              let fs2 := fs1.write d1 ((fs1.read ep).getD [])
              let d2 : FP := ⟨tdir, ip.stem, ip.ext⟩
              if ω.copyFails ip d2 then
                ⟨.error .osError, fs2.eraseDir tmp, e.calls ++ i.calls ++ m.calls⟩
              else
                let fs3 := fs2.write d2 ((fs2.read ip).getD [])
                ⟨.ok fp, fs3.eraseDir tmp, e.calls ++ i.calls ++ m.calls⟩
          else
            ⟨.ok fp, m.fs.eraseDir tmp, e.calls ++ i.calls ++ m.calls⟩
  else ⟨.error (.notFound video_path), fs, []⟩

/-- The fixed eligible extension set of batch_process_videos. -/
def video_extensions : List String := [".mp4", ".avi", ".mov", ".mkv", ".webm"]

/-- The file-discovery step of batch_process_videos: direct children of
the input directory that are regular files whose lower-cased extension is
in the eligible set. -/
def discoverVideos (fs : FS) (input_dir : List String) (exts : List String) : List FP :=
  (fs.files.map Prod.fst).filter
    (fun p => decide (p.dir = input_dir) && exts.contains (lower p.ext))

/-- The derived per-item output path of the batch loop:
output_dir / (stem + _clean + suffix). -/
def derivedOut (output_dir : List String) (v : FP) : FP :=
  ⟨output_dir, v.stem ++ "_clean", v.ext⟩

/-- The per-item loop of batch_process_videos: run each discovered file
through process_video (each call gets its own fresh temporary directory,
indexed by `tmps`), append the returned path on success, and on any error
log and skip the item. -/
def batchLoop (ω : Oracle) (env : Option String) (tmps : Nat → List String)
    (output_dir : List String) (api_key : Option String) (video_codec : String)
    (keep_temp_files overwrite : Bool) :
    List FP → Nat → FS → List FP × FS
  | [], _, fs => ([], fs)
  | v :: rest, i, fs =>
    let r := process_video ω env (tmps i) fs v (some (derivedOut output_dir v))
               keep_temp_files api_key video_codec overwrite
    match r.res with
    | .ok p =>
      let rec2 := batchLoop ω env tmps output_dir api_key video_codec
                    keep_temp_files overwrite rest (i + 1) r.fs
      (p :: rec2.1, rec2.2)
    | .error _ =>
      batchLoop ω env tmps output_dir api_key video_codec
        keep_temp_files overwrite rest (i + 1) r.fs

/-- batch_process_videos (processor.py).  Checks the input directory,
resolves the default output directory (a processed_videos child) and
creates it, creates an input_dir/temp_files directory when no temp_dir was
supplied and keep_temp_files is true (temp_dir is otherwise unused),
discovers eligible files, and runs the per-item loop. -/
def batch_process_videos (ω : Oracle) (env : Option String) (tmps : Nat → List String)
    (fs : FS) (input_dir : List String)
    (output_dir : Option (List String) := none) (temp_dir : Option (List String) := none)
    (exts : List String := video_extensions) (api_key : Option String := none)
    (video_codec : String := "copy") (keep_temp_files : Bool := false)
    (overwrite : Bool := false) : Except Err (List FP) × FS :=
  if fs.isDir input_dir then
    let outd := output_dir.getD (input_dir ++ ["processed_videos"])
    let fs1 := fs.mkdir outd
    let fs2 := if temp_dir = none && keep_temp_files
               then fs1.mkdir (input_dir ++ ["temp_files"]) else fs1
    let vids := discoverVideos fs2 input_dir exts
    let r := batchLoop ω env tmps outd api_key video_codec keep_temp_files overwrite
               vids 0 fs2
    (.ok r.1, r.2)
  else (.error (.notADirectory input_dir), fs)

/-- The parsed command-line arguments of cli.py. -/
structure Args where
  input : FP
  output : Option FP := none
  batch : Bool := false
  temp_dir : Option FP := none
  keep_temp : Bool := false
  api_key : Option String := none
  video_codec : String := "copy"
  overwrite : Bool := false

/-- The credential resolution of cli.py: `args.api_key or env`, Python
truthiness, so an empty --api-key value falls through to the environment. -/
def resolveKey (argKey env : Option String) : Option String :=
  match argKey with
  | some k => if k = "" then env else some k
  | none => env

/-- main (cli.py), returning the process exit status and the final
filesystem.  parser.error terminates with status 2 (the argparse
convention) for a missing credential or a bad input path; an exception
escaping the processing call is caught and turns into status 1; otherwise
the status is 0, including a batch run with per-item failures. -/
def main (ω : Oracle) (env : Option String) (tmps : Nat → List String) (fs : FS)
    (args : Args) : Nat × FS :=
  match resolveKey args.api_key env with
  | none => (2, fs)
  | some k =>
    if k = "" then (2, fs)
    else if args.batch then
      if fs.isDir args.input.asDir then
        match batch_process_videos ω env tmps fs args.input.asDir
                (args.output.map FP.asDir) (args.temp_dir.map FP.asDir)
                video_extensions (some k) args.video_codec args.keep_temp
                args.overwrite with
        | (.ok _, fs2) => (0, fs2)
        | (.error _, fs2) => (1, fs2)
      else (2, fs)
    else
      if fs.fileExists args.input then
        let r := process_video ω env (tmps 0) fs args.input args.output
                   args.keep_temp (some k) args.video_codec args.overwrite
        match r.res with
        | .ok _ => (0, r.fs)
        | .error _ => (1, r.fs)
      else (2, fs)

/-! Concrete fixtures used to evaluate the embedding on explicit inputs. -/

/-- An empty filesystem. -/
def fs0 : FS := ⟨[], []⟩

/-- A sample video file path. -/
def vidV : FP := ⟨["d"], "v", ".mp4"⟩

/-- A sample audio file path. -/
def audioA : FP := ⟨["d"], "a", ".mp3"⟩

/-- An existing output path used for collision scenarios. -/
def outC : FP := ⟨["d"], "out", ".mp4"⟩

/-- A filesystem holding just the sample audio file. -/
def fsA : FS := ⟨[(audioA, [1, 2, 3])], []⟩

/-- A filesystem holding just the sample video file. -/
def fsV : FS := ⟨[(vidV, [1])], []⟩

/-- A filesystem holding video, audio, and a pre-existing output file. -/
def fsM : FS := ⟨[(vidV, [1]), (audioA, [2]), (outC, [7])], []⟩

/-- Batch items: two healthy videos and one whose audio makes the service fail. -/
def fpA : FP := ⟨["inp"], "a", ".mp4"⟩

/-- The batch item whose isolation stage is made to fail. -/
def fpB : FP := ⟨["inp"], "b", ".mp4"⟩

/-- The third batch item. -/
def fpC : FP := ⟨["inp"], "c", ".mov"⟩

/-- A batch input directory with three eligible files. -/
def fsB : FS := ⟨[(fpA, [1]), (fpB, [9]), (fpC, [2])], []⟩

/-- A constant temporary-directory supply. -/
def tmps0 : Nat → List String := fun _ => ["tmp"]

/-- A benign oracle: extraction echoes the bytes, isolation returns the
audio as a single chunk, merging concatenates, copies never fail. -/
def ωtest : Oracle :=
  ⟨fun c => .ok c, fun _ c => .ok [c], fun v a => .ok (v ++ a), fun _ _ => false⟩

/-- Like ωtest, but the isolation service fails on audio content [9]. -/
def ωbatch : Oracle :=
  ⟨fun c => .ok c, fun _ c => if c = [9] then .error "service failure" else .ok [c],
   fun v a => .ok (v ++ a), fun _ _ => false⟩

/-- Like ωtest, but ffmpeg extraction always fails. -/
def ωext : Oracle :=
  ⟨fun _ => .error "ffmpeg failure", fun _ c => .ok [c], fun v a => .ok (v ++ a),
   fun _ _ => false⟩

/-- Like ωtest, but copying any file whose stem is "v" fails at the OS level. -/
def ωcopy : Oracle :=
  ⟨fun c => .ok c, fun _ c => .ok [c], fun v a => .ok (v ++ a), fun s _ => s.stem == "v"⟩

/-- CLI arguments with no credential anywhere. -/
def argsNoKey : Args := { input := vidV }

/-- CLI arguments for a single-file run with a credential. -/
def argsSingle : Args := { input := vidV, api_key := some "k" }

/-- CLI arguments for a batch run over the "inp" directory. -/
def argsBatch : Args := { input := ⟨[], "inp", ""⟩, batch := true, api_key := some "k" }

/-! Helper lemmas about the filesystem model. -/

theorem lookupFile_removeFile (l : List (FP × List Nat)) (p q : FP) :
    lookupFile (removeFile l p) q = if q = p then none else lookupFile l q := by
  induction l with
  | nil => simp [removeFile, lookupFile]
  | cons e es ih =>
    by_cases h2 : q = p
    · subst h2
      by_cases h1 : e.1 = q
      · simp [removeFile, lookupFile, h1, ih]
      · simp [removeFile, lookupFile, h1, ih]
    · by_cases h1 : e.1 = p
      · have h3 : ¬ e.1 = q := fun h => h2 (h.symm.trans h1)
        have h4 : ¬ p = q := fun h => h2 h.symm
        simp [removeFile, lookupFile, h1, h2, h3, h4, ih]
      · simp [removeFile, lookupFile, h1, h2, ih]

theorem FS.read_write (fs : FS) (p q : FP) (c : List Nat) :
    (fs.write p c).read q = if q = p then some c else fs.read q := by
  unfold FS.write FS.read
  by_cases h : q = p
  · simp [lookupFile, h]
  · have h2 : ¬ p = q := fun hh => h hh.symm
    simp [lookupFile, h2, h, lookupFile_removeFile]

theorem lookupFile_eraseUnder (l : List (FP × List Nat)) (t : List String) (q : FP) :
    lookupFile (eraseUnder l t) q =
      if isUnder t q.dir then none else lookupFile l q := by
  induction l with
  | nil => simp [eraseUnder, lookupFile]
  | cons e es ih =>
    by_cases h1 : isUnder t e.1.dir
    · by_cases h2 : e.1 = q
      · have h3 : isUnder t q.dir := h2 ▸ h1
        simp [eraseUnder, lookupFile, h1, h2, h3, ih]
      · simp [eraseUnder, lookupFile, h1, h2, ih]
    · by_cases h2 : e.1 = q
      · subst h2
        simp [eraseUnder, lookupFile, h1, ih]
      · simp [eraseUnder, lookupFile, h1, h2, ih]

theorem FS.read_eraseDir (fs : FS) (t : List String) (q : FP) :
    (fs.eraseDir t).read q = if isUnder t q.dir then none else fs.read q := by
  unfold FS.eraseDir FS.read
  exact lookupFile_eraseUnder fs.files t q

theorem FS.read_mkdir (fs : FS) (d : List String) (q : FP) :
    (fs.mkdir d).read q = fs.read q := rfl

theorem isUnder_refl (t : List String) : isUnder t t = true := by
  induction t with
  | nil => rfl
  | cons a as ih => simp [isUnder, ih]

theorem ne_of_isUnder_false {t d : List String} (h : isUnder t d = false) : d ≠ t := by
  intro h2; rw [h2, isUnder_refl] at h; exact Bool.false_ne_true h.symm

theorem self_ne_append_len (s t : String) (ht : 0 < t.length) : s ≠ s ++ t := by
  intro h
  have h2 := congrArg String.length h
  rw [String.length_append] at h2
  omega

theorem append_cancel_r (s1 s2 t : String) (h : s1 ++ t = s2 ++ t) : s1 = s2 := by
  have hd := congrArg String.data h
  rw [String.data_append, String.data_append] at hd
  have h2 := List.append_cancel_right hd
  cases s1
  cases s2
  exact congrArg String.mk h2

/-- C7: batch discovery selects exactly the direct children of the input
directory that are regular files whose lower-cased extension lies in the
fixed eligible set, and the selection depends only on the listing of
paths, never on file content; a file in a subdirectory has a different
parent directory and is therefore never selected. -/
theorem discovery_spec (fs fs2 : FS) (d : List String) (p : FP) :
    (p ∈ discoverVideos fs d video_extensions ↔
      p ∈ fs.files.map Prod.fst ∧ p.dir = d ∧ lower p.ext ∈ video_extensions) ∧
    (fs.files.map Prod.fst = fs2.files.map Prod.fst →
      discoverVideos fs d video_extensions = discoverVideos fs2 d video_extensions) := by
  constructor
  · unfold discoverVideos
    rw [List.mem_filter]
    constructor
    · rintro ⟨h1, h2⟩
      rw [Bool.and_eq_true, decide_eq_true_iff] at h2
      exact ⟨h1, h2.1, List.elem_iff.mp h2.2⟩
    · rintro ⟨h1, h2, h3⟩
      refine ⟨h1, ?_⟩
      rw [Bool.and_eq_true, decide_eq_true_iff]
      exact ⟨h2, List.elem_iff.mpr h3⟩
  · intro h; unfold discoverVideos; rw [h]

/-- Witness for C7 at a concrete directory listing. -/
theorem discovery_spec_w :
    vidV ∈ discoverVideos fsV ["d"] video_extensions ∧
    discoverVideos fsV ["d"] video_extensions =
      discoverVideos fsV ["d"] video_extensions := by
  refine ⟨(discovery_spec fsV fsV ["d"] vidV).1.mpr (by decide), ?_⟩
  exact (discovery_spec fsV fsV ["d"] vidV).2 rfl

/-- C4: each stage entry point invoked on a missing required input fails
with a NotFound error that names the missing input, performs zero external
delegate calls (no subprocess, no network call), and leaves the filesystem
unchanged; for the merger this holds for either missing input. -/
theorem stage_notfound_no_delegate (ω : Oracle) (env : Option String) (fs : FS)
    (v a : FP) (outp : Option FP) (fmt : String) (key : Option String)
    (vc ac ab : String) (ow : Bool) :
    (fs.read v = none →
      extract_audio_from_video ω fs v outp fmt = ⟨.error (.notFound v), fs, []⟩) ∧
    (fs.read a = none →
      isolate_voice ω env fs a outp key = ⟨.error (.notFound a), fs, []⟩) ∧
    (fs.read v = none →
      merge_video_with_audio ω fs v a outp vc ac ab ow =
        ⟨.error (.notFound v), fs, []⟩) ∧
    (∀ c, fs.read v = some c → fs.read a = none →
      merge_video_with_audio ω fs v a outp vc ac ab ow =
        ⟨.error (.notFound a), fs, []⟩) := by
  refine ⟨fun h => ?_, fun h => ?_, fun h => ?_, fun c hc h => ?_⟩
  · unfold extract_audio_from_video; rw [h]
  · unfold isolate_voice; rw [h]
  · unfold merge_video_with_audio; rw [h]
  · unfold merge_video_with_audio; rw [hc, h]

/-- Witness for C4 at a concrete missing input. -/
theorem stage_notfound_no_delegate_w :
    extract_audio_from_video ωtest fs0 vidV none "mp3" =
      ⟨.error (.notFound vidV), fs0, []⟩ ∧
    isolate_voice ωtest none fs0 audioA none none =
      ⟨.error (.notFound audioA), fs0, []⟩ ∧
    merge_video_with_audio ωtest fsV vidV audioA none "copy" "aac" "192k" false =
      ⟨.error (.notFound audioA), fsV, []⟩ := by
  have h := stage_notfound_no_delegate ωtest none fs0 vidV audioA none "mp3" none
    "copy" "aac" "192k" false
  have h2 := stage_notfound_no_delegate ωtest none fsV vidV audioA none "mp3" none
    "copy" "aac" "192k" false
  exact ⟨h.1 rfl, h.2.1 rfl, h2.2.2.2 [1] rfl rfl⟩

/-- Evaluation of isolate_voice when the input exists and an explicit
credential is supplied. -/
theorem isolate_voice_key_eval (ω : Oracle) (env : Option String) (fs : FS)
    (a : FP) (outp : Option FP) (k : String) (c : List Nat)
    (hr : fs.read a = some c) :
    isolate_voice ω env fs a outp (some k) =
      match ω.isolateChunks k c with
      | .error m => ⟨.error (.serviceError m), fs, [.network k]⟩
      | .ok chunks =>
          ⟨.ok (outp.getD (a.withStem (a.stem ++ "_isolated"))),
           fs.write (outp.getD (a.withStem (a.stem ++ "_isolated"))) chunks.flatten,
           [.network k]⟩ := by
  unfold isolate_voice
  rw [hr]

/-- Evaluation of isolate_voice when the input exists, no explicit
credential is supplied, and the environment holds a non-empty one. -/
theorem isolate_voice_env_eval (ω : Oracle) (e : String) (fs : FS)
    (a : FP) (outp : Option FP) (c : List Nat)
    (hne : e ≠ "") (hr : fs.read a = some c) :
    isolate_voice ω (some e) fs a outp none =
      match ω.isolateChunks e c with
      | .error m => ⟨.error (.serviceError m), fs, [.network e]⟩
      | .ok chunks =>
          ⟨.ok (outp.getD (a.withStem (a.stem ++ "_isolated"))),
           fs.write (outp.getD (a.withStem (a.stem ++ "_isolated"))) chunks.flatten,
           [.network e]⟩ := by
  unfold isolate_voice
  rw [hr]
  simp only [if_neg hne]

/-- Evaluation of merge_video_with_audio with overwrite requested: the
collision rename and the tool's existence refusal are both bypassed. -/
theorem merge_eval_ow (ω : Oracle) (fs : FS) (v a : FP) (outp : Option FP)
    (vc ac abr : String) (vb avb : List Nat)
    (hv : fs.read v = some vb) (ha : fs.read a = some avb) :
    merge_video_with_audio ω fs v a outp vc ac abr true =
      match ω.mergeResult vb avb with
      | .error m => ⟨.error (.toolError m), fs, [.subprocess true]⟩
      | .ok merged =>
          ⟨.ok (outp.getD (v.withStem (v.stem ++ "_clean"))),
           fs.write (outp.getD (v.withStem (v.stem ++ "_clean"))) merged,
           [.subprocess true]⟩ := by
  unfold merge_video_with_audio
  rw [hv, ha]
  simp

/-- Evaluation of merge_video_with_audio with overwrite false when the
resolved output path already exists: the destination is renamed with the
_new marker and the tool refuses if that renamed path exists as well. -/
theorem merge_eval_collision (ω : Oracle) (fs : FS) (v a : FP) (outp : Option FP)
    (vc ac abr : String) (vb avb : List Nat)
    (hv : fs.read v = some vb) (ha : fs.read a = some avb)
    (hex : fs.fileExists (outp.getD (v.withStem (v.stem ++ "_clean"))) = true) :
    merge_video_with_audio ω fs v a outp vc ac abr false =
      (if fs.fileExists ((outp.getD (v.withStem (v.stem ++ "_clean"))).withStem
            ((outp.getD (v.withStem (v.stem ++ "_clean"))).stem ++ "_new")) then
        ⟨.error (.toolError "output file already exists"), fs, [.subprocess false]⟩
      else
        match ω.mergeResult vb avb with
        | .error m => ⟨.error (.toolError m), fs, [.subprocess false]⟩
        | .ok merged =>
            ⟨.ok ((outp.getD (v.withStem (v.stem ++ "_clean"))).withStem
                ((outp.getD (v.withStem (v.stem ++ "_clean"))).stem ++ "_new")),
             fs.write ((outp.getD (v.withStem (v.stem ++ "_clean"))).withStem
                ((outp.getD (v.withStem (v.stem ++ "_clean"))).stem ++ "_new")) merged,
             [.subprocess false]⟩) := by
  unfold merge_video_with_audio
  rw [hv, ha]
  simp [hex]

/-- Evaluation of merge_video_with_audio with overwrite false when the
resolved output path does not exist: no rename, no refusal. -/
theorem merge_eval_free (ω : Oracle) (fs : FS) (v a : FP) (outp : Option FP)
    (vc ac abr : String) (vb avb : List Nat)
    (hv : fs.read v = some vb) (ha : fs.read a = some avb)
    (hex : fs.fileExists (outp.getD (v.withStem (v.stem ++ "_clean"))) = false) :
    merge_video_with_audio ω fs v a outp vc ac abr false =
      match ω.mergeResult vb avb with
      | .error m => ⟨.error (.toolError m), fs, [.subprocess false]⟩
      | .ok merged =>
          ⟨.ok (outp.getD (v.withStem (v.stem ++ "_clean"))),
           fs.write (outp.getD (v.withStem (v.stem ++ "_clean"))) merged,
           [.subprocess false]⟩ := by
  unfold merge_video_with_audio
  rw [hv, ha]
  simp [hex]

/-- Evaluation of extract_audio_from_video when the input exists. -/
theorem extract_eval (ω : Oracle) (fs : FS) (v : FP) (outp : Option FP)
    (fmt : String) (c : List Nat) (hr : fs.read v = some c) :
    extract_audio_from_video ω fs v outp fmt =
      match ω.extractResult c with
      | .error m => ⟨.error (.toolError m), fs, [.subprocess true]⟩
      | .ok audio =>
          ⟨.ok (outp.getD (v.withSuffix ("." ++ fmt))),
           fs.write (outp.getD (v.withSuffix ("." ++ fmt))) audio,
           [.subprocess true]⟩ := by
  unfold extract_audio_from_video
  rw [hr]

/-- C3 counterexample: the input audio exists and no non-empty credential
resolves (the explicit api_key parameter is the empty string, so the
environment is never consulted), yet isolate_voice does not fail with a
configuration error: it performs a network call carrying the empty
credential, because the source only consults and validates the credential
when the parameter is None. -/
theorem isolate_credential_cex :
    (isolate_voice ωtest none fsA audioA none (some "")).res ≠
      Except.error Err.configError ∧
    (isolate_voice ωtest none fsA audioA none (some "")).calls =
      [Call.network ""] := by
  decide

/-- C3 amended: when the api_key parameter is absent, the credential is
resolved from the environment variable, and an unset or empty environment
value makes the call fail fast with a configuration error before any
network activity, leaving the filesystem unchanged (no output created);
an explicitly supplied api_key — even the empty string — is used as the
credential without this check, and any network call performed carries
exactly the resolved credential. -/
theorem isolate_credential_amended (ω : Oracle) (env : Option String) (fs : FS)
    (a : FP) (outp : Option FP) :
    (∀ c, fs.read a = some c → env = none ∨ env = some "" →
      isolate_voice ω env fs a outp none = ⟨.error .configError, fs, []⟩) ∧
    (∀ k call, call ∈ (isolate_voice ω env fs a outp (some k)).calls →
      call = .network k) ∧
    (∀ e call, env = some e → e ≠ "" →
      call ∈ (isolate_voice ω env fs a outp none).calls → call = .network e) := by
  refine ⟨fun c hc henv => ?_, fun k call hcall => ?_, fun e call he hne hcall => ?_⟩
  · unfold isolate_voice
    rw [hc]
    rcases henv with h | h <;> subst h <;> simp
  · rcases hr : fs.read a with _ | c
    · have heq : isolate_voice ω env fs a outp (some k) =
          ⟨.error (.notFound a), fs, []⟩ := by
        unfold isolate_voice; rw [hr]
      rw [heq] at hcall
      exact absurd hcall (List.not_mem_nil call)
    · rw [isolate_voice_key_eval ω env fs a outp k c hr] at hcall
      rcases hi : ω.isolateChunks k c <;> rw [hi] at hcall <;> simpa using hcall
  · subst he
    rcases hr : fs.read a with _ | c
    · have heq : isolate_voice ω (some e) fs a outp none =
          ⟨.error (.notFound a), fs, []⟩ := by
        unfold isolate_voice; rw [hr]
      rw [heq] at hcall
      exact absurd hcall (List.not_mem_nil call)
    · rw [isolate_voice_env_eval ω e fs a outp c hne hr] at hcall
      rcases hi : ω.isolateChunks e c <;> rw [hi] at hcall <;> simpa using hcall

/-- Witness for the amended C3: with no parameter and no environment
credential the call fails fast with a configuration error, no network
call, filesystem unchanged. -/
theorem isolate_credential_amended_w :
    isolate_voice ωtest none fsA audioA none none =
      ⟨.error .configError, fsA, []⟩ :=
  (isolate_credential_amended ωtest none fsA audioA none).1 [1, 2, 3] rfl (Or.inl rfl)

/-- C9: on every successful isolate_voice call the bytes written at the
output location are exactly the in-order concatenation of the chunk
sequence returned by the remote isolation capability — no chunk dropped,
reordered, or re-encoded — and the output's total length equals the sum
of the chunk lengths. -/
theorem isolate_stream_concat (ω : Oracle) (env : Option String) (fs : FS)
    (a : FP) (outp : Option FP) (k : String) (c : List Nat)
    (chunks : List (List Nat))
    (hc : fs.read a = some c)
    (hok : ω.isolateChunks k c = .ok chunks) :
    (isolate_voice ω env fs a outp (some k)).res =
      .ok (outp.getD (a.withStem (a.stem ++ "_isolated"))) ∧
    ((isolate_voice ω env fs a outp (some k)).fs).read
      (outp.getD (a.withStem (a.stem ++ "_isolated"))) = some chunks.flatten ∧
    chunks.flatten.length = (chunks.map List.length).sum := by
  rw [isolate_voice_key_eval ω env fs a outp k c hc, hok]
  refine ⟨rfl, ?_, List.length_flatten chunks⟩
  show (fs.write (outp.getD (a.withStem (a.stem ++ "_isolated"))) chunks.flatten).read
      (outp.getD (a.withStem (a.stem ++ "_isolated"))) = some chunks.flatten
  rw [FS.read_write, if_pos rfl]

/-- Witness for C9 at a concrete chunk stream. -/
theorem isolate_stream_concat_w :
    (isolate_voice ωtest none fsA audioA none (some "k")).res =
      .ok ((none : Option FP).getD (audioA.withStem (audioA.stem ++ "_isolated"))) ∧
    ((isolate_voice ωtest none fsA audioA none (some "k")).fs).read
      ((none : Option FP).getD (audioA.withStem (audioA.stem ++ "_isolated"))) =
      some ([[1, 2, 3]] : List (List Nat)).flatten ∧
    ([[1, 2, 3]] : List (List Nat)).flatten.length =
      (([[1, 2, 3]] : List (List Nat)).map List.length).sum :=
  isolate_stream_concat ωtest none fsA audioA none "k" [1, 2, 3] [[1, 2, 3]] rfl rfl

/-- C1: merge collision law.  When the resolved output path already exists
and overwrite is false, the file previously at the resolved path is left
byte-for-byte unchanged (the originally planned name is never silently
replaced), and whenever the call succeeds the merged result is written at
the path obtained by appending the _new marker to the stem before the
extension. -/
theorem merge_collision_law (ω : Oracle) (fs : FS) (v a : FP) (outp : Option FP)
    (vc ac abr : String) (vb avb : List Nat)
    (hv : fs.read v = some vb) (ha : fs.read a = some avb)
    (hex : fs.fileExists (outp.getD (v.withStem (v.stem ++ "_clean"))) = true) :
    ((merge_video_with_audio ω fs v a outp vc ac abr false).fs).read
        (outp.getD (v.withStem (v.stem ++ "_clean"))) =
      fs.read (outp.getD (v.withStem (v.stem ++ "_clean"))) ∧
    ∀ p, (merge_video_with_audio ω fs v a outp vc ac abr false).res = .ok p →
      p = (outp.getD (v.withStem (v.stem ++ "_clean"))).withStem
            ((outp.getD (v.withStem (v.stem ++ "_clean"))).stem ++ "_new") ∧
      ∃ m, ω.mergeResult vb avb = .ok m ∧
        ((merge_video_with_audio ω fs v a outp vc ac abr false).fs).read p =
          some m := by
  have hne : outp.getD (v.withStem (v.stem ++ "_clean")) ≠
      (outp.getD (v.withStem (v.stem ++ "_clean"))).withStem
        ((outp.getD (v.withStem (v.stem ++ "_clean"))).stem ++ "_new") := by
    intro h
    have h2 := congrArg FP.stem h
    exact self_ne_append_len _ "_new" (by decide) h2
  by_cases hnew : fs.fileExists ((outp.getD (v.withStem (v.stem ++ "_clean"))).withStem
      ((outp.getD (v.withStem (v.stem ++ "_clean"))).stem ++ "_new")) = true
  · have heq : merge_video_with_audio ω fs v a outp vc ac abr false =
        ⟨.error (.toolError "output file already exists"), fs, [.subprocess false]⟩ := by
      rw [merge_eval_collision ω fs v a outp vc ac abr vb avb hv ha hex, if_pos hnew]
    rw [heq]
    exact ⟨rfl, fun p hp => Except.noConfusion hp⟩
  · rcases hm : ω.mergeResult vb avb with m | m
    · have heq : merge_video_with_audio ω fs v a outp vc ac abr false =
          ⟨.error (.toolError m), fs, [.subprocess false]⟩ := by
        rw [merge_eval_collision ω fs v a outp vc ac abr vb avb hv ha hex,
          if_neg hnew, hm]
      rw [heq]
      exact ⟨rfl, fun p hp => Except.noConfusion hp⟩
    · have heq : merge_video_with_audio ω fs v a outp vc ac abr false =
          ⟨.ok ((outp.getD (v.withStem (v.stem ++ "_clean"))).withStem
              ((outp.getD (v.withStem (v.stem ++ "_clean"))).stem ++ "_new")),
           fs.write ((outp.getD (v.withStem (v.stem ++ "_clean"))).withStem
              ((outp.getD (v.withStem (v.stem ++ "_clean"))).stem ++ "_new")) m,
           [.subprocess false]⟩ := by
        rw [merge_eval_collision ω fs v a outp vc ac abr vb avb hv ha hex,
          if_neg hnew, hm]
      rw [heq]
      refine ⟨?_, fun p hp => ?_⟩
      · show (fs.write _ m).read _ = _
        rw [FS.read_write, if_neg hne]
      · have hp2 := Except.ok.inj hp
        subst hp2
        refine ⟨rfl, m, rfl, ?_⟩
        show (fs.write _ m).read _ = some m
        rw [FS.read_write, if_pos rfl]

/-- Witness for C1: concrete collision, original file untouched and the
merged result written at the _new path. -/
theorem merge_collision_law_w :
    ((merge_video_with_audio ωtest fsM vidV audioA (some outC)
        "copy" "aac" "192k" false).fs).read outC = fsM.read outC ∧
    (outC.withStem (outC.stem ++ "_new") = outC.withStem (outC.stem ++ "_new") ∧
      ∃ m, ωtest.mergeResult [1] [2] = .ok m ∧
        ((merge_video_with_audio ωtest fsM vidV audioA (some outC)
            "copy" "aac" "192k" false).fs).read
          (outC.withStem (outC.stem ++ "_new")) = some m) := by
  have h := merge_collision_law ωtest fsM vidV audioA (some outC)
    "copy" "aac" "192k" [1] [2] rfl rfl (by decide)
  exact ⟨h.1, h.2 (outC.withStem (outC.stem ++ "_new")) (by decide)⟩

/-- C8: merge overwrite law.  With overwrite true and the resolved output
path existing, a successful call leaves the newly merged content at that
same path and no _new-suffixed sibling is created; the overwrite flag is
passed through to the external tool exactly in this case — the
overwrite=true run records the subprocess call with the flag set, while
the same call with overwrite false never passes the flag. -/
theorem merge_overwrite_law (ω : Oracle) (fs : FS) (v a : FP) (outp : Option FP)
    (vc ac abr : String) (vb avb : List Nat)
    (hv : fs.read v = some vb) (ha : fs.read a = some avb)
    (hex : fs.fileExists (outp.getD (v.withStem (v.stem ++ "_clean"))) = true) :
    (merge_video_with_audio ω fs v a outp vc ac abr true).calls =
      [Call.subprocess true] ∧
    (∀ p, (merge_video_with_audio ω fs v a outp vc ac abr true).res = .ok p →
      p = outp.getD (v.withStem (v.stem ++ "_clean"))) ∧
    (∀ m, ω.mergeResult vb avb = .ok m →
      (merge_video_with_audio ω fs v a outp vc ac abr true).res =
        .ok (outp.getD (v.withStem (v.stem ++ "_clean"))) ∧
      ((merge_video_with_audio ω fs v a outp vc ac abr true).fs).read
        (outp.getD (v.withStem (v.stem ++ "_clean"))) = some m) ∧
    ((merge_video_with_audio ω fs v a outp vc ac abr true).fs).read
        ((outp.getD (v.withStem (v.stem ++ "_clean"))).withStem
          ((outp.getD (v.withStem (v.stem ++ "_clean"))).stem ++ "_new")) =
      fs.read ((outp.getD (v.withStem (v.stem ++ "_clean"))).withStem
          ((outp.getD (v.withStem (v.stem ++ "_clean"))).stem ++ "_new")) ∧
    ∀ call ∈ (merge_video_with_audio ω fs v a outp vc ac abr false).calls,
      call ≠ Call.subprocess true := by
  have hne : outp.getD (v.withStem (v.stem ++ "_clean")) ≠
      (outp.getD (v.withStem (v.stem ++ "_clean"))).withStem
        ((outp.getD (v.withStem (v.stem ++ "_clean"))).stem ++ "_new") := by
    intro h
    have h2 := congrArg FP.stem h
    exact self_ne_append_len _ "_new" (by decide) h2
  have hfalse : ∀ call ∈ (merge_video_with_audio ω fs v a outp vc ac abr false).calls,
      call ≠ Call.subprocess true := by
    intro call hcall
    rw [merge_eval_collision ω fs v a outp vc ac abr vb avb hv ha hex] at hcall
    by_cases hnew : fs.fileExists ((outp.getD (v.withStem (v.stem ++ "_clean"))).withStem
        ((outp.getD (v.withStem (v.stem ++ "_clean"))).stem ++ "_new")) = true
    · rw [if_pos hnew] at hcall
      simp at hcall
      simp [hcall]
    · rw [if_neg hnew] at hcall
      rcases hm : ω.mergeResult vb avb with m | m <;> rw [hm] at hcall <;>
        simp at hcall <;> simp [hcall]
  rw [merge_eval_ow ω fs v a outp vc ac abr vb avb hv ha]
  rcases hm : ω.mergeResult vb avb with m | m
  · exact ⟨rfl, fun p hp => Except.noConfusion hp,
      fun m2 hm2 => Except.noConfusion hm2, rfl, hfalse⟩
  · refine ⟨rfl, fun p hp => ?_, fun m2 hm2 => ?_, ?_, hfalse⟩
    · exact (Except.ok.inj hp).symm
    · have hm3 := Except.ok.inj hm2
      subst hm3
      refine ⟨rfl, ?_⟩
      show (fs.write _ m).read _ = some m
      rw [FS.read_write, if_pos rfl]
    · show (fs.write _ m).read _ = _
      rw [FS.read_write, if_neg (fun h => hne h.symm)]

/-- Witness for C8: concrete overwrite run replacing the existing output,
with the flag recorded and no _new sibling created. -/
theorem merge_overwrite_law_w :
    (merge_video_with_audio ωtest fsM vidV audioA (some outC)
        "copy" "aac" "192k" true).calls = [Call.subprocess true] ∧
    (merge_video_with_audio ωtest fsM vidV audioA (some outC)
        "copy" "aac" "192k" true).res = .ok outC ∧
    ((merge_video_with_audio ωtest fsM vidV audioA (some outC)
        "copy" "aac" "192k" true).fs).read outC = some [1, 2] ∧
    ((merge_video_with_audio ωtest fsM vidV audioA (some outC)
        "copy" "aac" "192k" true).fs).read (outC.withStem (outC.stem ++ "_new")) =
      fsM.read (outC.withStem (outC.stem ++ "_new")) ∧
    Call.subprocess false ≠ Call.subprocess true := by
  have h := merge_overwrite_law ωtest fsM vidV audioA (some outC)
    "copy" "aac" "192k" [1] [2] rfl rfl (by decide)
  have h3 := h.2.2.1 [1, 2] rfl
  exact ⟨h.1, h3.1, h3.2, h.2.2.2.1, h.2.2.2.2 (Call.subprocess false) (by decide)⟩

/-- Evaluation of process_video on a run whose three stages succeed, with
keep_temp_files false: the final state is the input state plus the two
temporary writes and the output write, with the temporary scope erased. -/
theorem process_video_ok_eval (ω : Oracle) (env : Option String) (tmp : List String)
    (fs : FS) (v out : FP) (k vc : String)
    (vb ab m : List Nat) (chunks : List (List Nat))
    (hv : fs.read v = some vb)
    (hvdir : isUnder tmp v.dir = false)
    (houtdir : isUnder tmp out.dir = false)
    (hout : fs.fileExists out = false)
    (hex : ω.extractResult vb = .ok ab)
    (hiso : ω.isolateChunks k ab = .ok chunks)
    (hm : ω.mergeResult vb chunks.flatten = .ok m) :
    process_video ω env tmp fs v (some out) false (some k) vc false =
      ⟨.ok out,
       (((fs.write ⟨tmp, v.stem, ".mp3"⟩ ab).write
           ⟨tmp, v.stem ++ "_isolated", ".mp3"⟩ chunks.flatten).write out m).eraseDir tmp,
       [.subprocess true] ++ [.network k] ++ [.subprocess false]⟩ := by
  have hvne1 : v ≠ ⟨tmp, v.stem, ".mp3"⟩ :=
    fun h => ne_of_isUnder_false hvdir (congrArg FP.dir h)
  have hvne2 : v ≠ ⟨tmp, v.stem ++ "_isolated", ".mp3"⟩ :=
    fun h => ne_of_isUnder_false hvdir (congrArg FP.dir h)
  have houtne1 : out ≠ ⟨tmp, v.stem, ".mp3"⟩ :=
    fun h => ne_of_isUnder_false houtdir (congrArg FP.dir h)
  have houtne2 : out ≠ ⟨tmp, v.stem ++ "_isolated", ".mp3"⟩ :=
    fun h => ne_of_isUnder_false houtdir (congrArg FP.dir h)
  have hfs : fs.fileExists v = true := by unfold FS.fileExists; rw [hv]; rfl
  have he : extract_audio_from_video ω fs v (some ⟨tmp, v.stem, ".mp3"⟩) =
      ⟨.ok ⟨tmp, v.stem, ".mp3"⟩, fs.write ⟨tmp, v.stem, ".mp3"⟩ ab,
       [.subprocess true]⟩ := by
    rw [extract_eval ω fs v (some ⟨tmp, v.stem, ".mp3"⟩) "mp3" vb hv, hex]
    rfl
  have hr2 : (fs.write ⟨tmp, v.stem, ".mp3"⟩ ab).read ⟨tmp, v.stem, ".mp3"⟩ =
      some ab := by
    rw [FS.read_write, if_pos rfl]
  have hi : isolate_voice ω env (fs.write ⟨tmp, v.stem, ".mp3"⟩ ab)
      ⟨tmp, v.stem, ".mp3"⟩ (some ⟨tmp, v.stem ++ "_isolated", ".mp3"⟩) (some k) =
      ⟨.ok ⟨tmp, v.stem ++ "_isolated", ".mp3"⟩,
       (fs.write ⟨tmp, v.stem, ".mp3"⟩ ab).write
         ⟨tmp, v.stem ++ "_isolated", ".mp3"⟩ chunks.flatten,
       [.network k]⟩ := by
    rw [isolate_voice_key_eval ω env _ _ _ k ab hr2, hiso]
    rfl
  have hrv : ((fs.write ⟨tmp, v.stem, ".mp3"⟩ ab).write
      ⟨tmp, v.stem ++ "_isolated", ".mp3"⟩ chunks.flatten).read v = some vb := by
    rw [FS.read_write, if_neg hvne2, FS.read_write, if_neg hvne1, hv]
  have hri : ((fs.write ⟨tmp, v.stem, ".mp3"⟩ ab).write
      ⟨tmp, v.stem ++ "_isolated", ".mp3"⟩ chunks.flatten).read
      ⟨tmp, v.stem ++ "_isolated", ".mp3"⟩ = some chunks.flatten := by
    rw [FS.read_write, if_pos rfl]
  have hre : ((fs.write ⟨tmp, v.stem, ".mp3"⟩ ab).write
      ⟨tmp, v.stem ++ "_isolated", ".mp3"⟩ chunks.flatten).fileExists out = false := by
    unfold FS.fileExists
    rw [FS.read_write, if_neg houtne2, FS.read_write, if_neg houtne1]
    exact hout
  have hmm : merge_video_with_audio ω
      ((fs.write ⟨tmp, v.stem, ".mp3"⟩ ab).write
        ⟨tmp, v.stem ++ "_isolated", ".mp3"⟩ chunks.flatten)
      v ⟨tmp, v.stem ++ "_isolated", ".mp3"⟩ (some out) vc "aac" "192k" false =
      ⟨.ok out,
       ((fs.write ⟨tmp, v.stem, ".mp3"⟩ ab).write
         ⟨tmp, v.stem ++ "_isolated", ".mp3"⟩ chunks.flatten).write out m,
       [.subprocess false]⟩ := by
    rw [merge_eval_free ω _ v _ (some out) vc "aac" "192k" vb chunks.flatten
      hrv hri hre, hm]
    rfl
  unfold process_video
  rw [if_pos hfs]
  simp only [Option.getD_some]
  rw [he]
  simp only [Option.getD_some]
  rw [hi]
  simp only [Option.getD_some]
  rw [hmm]
  rfl

/-- State reading after a successful keep_temp_files=false run: outside
the temporary scope, only the output path changed. -/
theorem process_video_ok (ω : Oracle) (env : Option String) (tmp : List String)
    (fs : FS) (v out : FP) (k vc : String)
    (vb ab m : List Nat) (chunks : List (List Nat))
    (hv : fs.read v = some vb)
    (hvdir : isUnder tmp v.dir = false)
    (houtdir : isUnder tmp out.dir = false)
    (hout : fs.fileExists out = false)
    (hex : ω.extractResult vb = .ok ab)
    (hiso : ω.isolateChunks k ab = .ok chunks)
    (hm : ω.mergeResult vb chunks.flatten = .ok m) :
    (process_video ω env tmp fs v (some out) false (some k) vc false).res = .ok out ∧
    ∀ p, isUnder tmp p.dir = false →
      ((process_video ω env tmp fs v (some out) false (some k) vc false).fs).read p =
        if p = out then some m else fs.read p := by
  rw [process_video_ok_eval ω env tmp fs v out k vc vb ab m chunks
    hv hvdir houtdir hout hex hiso hm]
  refine ⟨rfl, fun p hp => ?_⟩
  have hpne1 : p ≠ ⟨tmp, v.stem, ".mp3"⟩ :=
    fun h => ne_of_isUnder_false hp (congrArg FP.dir h)
  have hpne2 : p ≠ ⟨tmp, v.stem ++ "_isolated", ".mp3"⟩ :=
    fun h => ne_of_isUnder_false hp (congrArg FP.dir h)
  show ((((fs.write ⟨tmp, v.stem, ".mp3"⟩ ab).write
      ⟨tmp, v.stem ++ "_isolated", ".mp3"⟩ chunks.flatten).write out m).eraseDir tmp).read
      p = _
  rw [FS.read_eraseDir, hp]
  by_cases hpo : p = out
  · simp only [Bool.false_eq_true, if_false, FS.read_write, if_pos hpo]
  · simp only [Bool.false_eq_true, if_false]
    rw [FS.read_write, if_neg hpo, FS.read_write, if_neg hpne2,
      FS.read_write, if_neg hpne1, if_neg hpo]

/-- Evaluation of process_video when extraction succeeds but the isolation
service fails, with keep_temp_files false. -/
theorem process_video_isofail_eval (ω : Oracle) (env : Option String)
    (tmp : List String) (fs : FS) (v out : FP) (k vc msg : String)
    (vb ab : List Nat)
    (hv : fs.read v = some vb)
    (hex : ω.extractResult vb = .ok ab)
    (hiso : ω.isolateChunks k ab = .error msg) :
    process_video ω env tmp fs v (some out) false (some k) vc false =
      ⟨.error (.serviceError msg), (fs.write ⟨tmp, v.stem, ".mp3"⟩ ab).eraseDir tmp,
       [.subprocess true] ++ [.network k]⟩ := by
  have hfs : fs.fileExists v = true := by unfold FS.fileExists; rw [hv]; rfl
  have he : extract_audio_from_video ω fs v (some ⟨tmp, v.stem, ".mp3"⟩) =
      ⟨.ok ⟨tmp, v.stem, ".mp3"⟩, fs.write ⟨tmp, v.stem, ".mp3"⟩ ab,
       [.subprocess true]⟩ := by
    rw [extract_eval ω fs v (some ⟨tmp, v.stem, ".mp3"⟩) "mp3" vb hv, hex]
    rfl
  have hr2 : (fs.write ⟨tmp, v.stem, ".mp3"⟩ ab).read ⟨tmp, v.stem, ".mp3"⟩ =
      some ab := by
    rw [FS.read_write, if_pos rfl]
  have hi : isolate_voice ω env (fs.write ⟨tmp, v.stem, ".mp3"⟩ ab)
      ⟨tmp, v.stem, ".mp3"⟩ (some ⟨tmp, v.stem ++ "_isolated", ".mp3"⟩) (some k) =
      ⟨.error (.serviceError msg), fs.write ⟨tmp, v.stem, ".mp3"⟩ ab,
       [.network k]⟩ := by
    rw [isolate_voice_key_eval ω env _ _ _ k ab hr2, hiso]
  unfold process_video
  rw [if_pos hfs]
  simp only [Option.getD_some]
  rw [he]
  simp only [Option.getD_some]
  rw [hi]

/-- State reading after an isolation-failure run: outside the temporary
scope nothing changed, and the run reports the service error. -/
theorem process_video_isofail (ω : Oracle) (env : Option String)
    (tmp : List String) (fs : FS) (v out : FP) (k vc msg : String)
    (vb ab : List Nat)
    (hv : fs.read v = some vb)
    (hex : ω.extractResult vb = .ok ab)
    (hiso : ω.isolateChunks k ab = .error msg) :
    (process_video ω env tmp fs v (some out) false (some k) vc false).res =
      .error (.serviceError msg) ∧
    ∀ p, isUnder tmp p.dir = false →
      ((process_video ω env tmp fs v (some out) false (some k) vc false).fs).read p =
        fs.read p := by
  rw [process_video_isofail_eval ω env tmp fs v out k vc msg vb ab hv hex hiso]
  refine ⟨rfl, fun p hp => ?_⟩
  have hpne1 : p ≠ ⟨tmp, v.stem, ".mp3"⟩ :=
    fun h => ne_of_isUnder_false hp (congrArg FP.dir h)
  show (((fs.write ⟨tmp, v.stem, ".mp3"⟩ ab)).eraseDir tmp).read p = _
  rw [FS.read_eraseDir, hp]
  simp only [Bool.false_eq_true, if_false]
  rw [FS.read_write, if_neg hpne1]

/-- C6 counterexample: a concrete single-item run with keep_intermediates
true whose three stages succeed.  With an oracle whose copies succeed the
call returns the final output path; with the same oracle except that the
copy of the extracted audio fails, the call raises instead of returning
the final output path — the copy step alone invalidates the otherwise
successful run, contrary to the claim. -/
theorem keep_copy_failure_cex :
    (process_video ωtest none ["tmp"] fsV vidV none true (some "k")
        "copy" false).res = .ok (vidV.withStem (vidV.stem ++ "_clean")) ∧
    (process_video ωcopy none ["tmp"] fsV vidV none true (some "k")
        "copy" false).res = .error .osError := by
  decide

/-- C6 amended: with keep_intermediates true and all three stages
succeeding, the extracted and isolated audio files are copied (not moved)
to the stable temp_files sibling directory of the source video before
temp-scope teardown; however the copy step is not error-guarded — if the
copy fails, the exception propagates and the call raises an OS error
instead of returning the final output path, although the merged output has
already been written and remains on disk. -/
theorem keep_intermediates_amended (ω : Oracle) (env : Option String)
    (tmp : List String) (fs : FS) (v out : FP) (k vc : String)
    (vb ab m : List Nat) (chunks : List (List Nat))
    (hv : fs.read v = some vb)
    (hvdir : isUnder tmp v.dir = false)
    (houtdir : isUnder tmp out.dir = false)
    (hout : fs.fileExists out = false)
    (htdir : isUnder tmp (v.dir ++ ["temp_files"]) = false)
    (houtsep : out.dir ≠ v.dir ++ ["temp_files"])
    (hex : ω.extractResult vb = .ok ab)
    (hiso : ω.isolateChunks k ab = .ok chunks)
    (hm : ω.mergeResult vb chunks.flatten = .ok m) :
    (ω.copyFails ⟨tmp, v.stem, ".mp3"⟩
        ⟨v.dir ++ ["temp_files"], v.stem, ".mp3"⟩ = true →
      (process_video ω env tmp fs v (some out) true (some k) vc false).res =
        .error .osError ∧
      ((process_video ω env tmp fs v (some out) true (some k) vc false).fs).read
        out = some m) ∧
    (ω.copyFails ⟨tmp, v.stem, ".mp3"⟩
        ⟨v.dir ++ ["temp_files"], v.stem, ".mp3"⟩ = false →
     ω.copyFails ⟨tmp, v.stem ++ "_isolated", ".mp3"⟩
        ⟨v.dir ++ ["temp_files"], v.stem ++ "_isolated", ".mp3"⟩ = false →
      (process_video ω env tmp fs v (some out) true (some k) vc false).res =
        .ok out ∧
      ((process_video ω env tmp fs v (some out) true (some k) vc false).fs).read
        ⟨v.dir ++ ["temp_files"], v.stem, ".mp3"⟩ = some ab ∧
      ((process_video ω env tmp fs v (some out) true (some k) vc false).fs).read
        ⟨v.dir ++ ["temp_files"], v.stem ++ "_isolated", ".mp3"⟩ =
          some chunks.flatten ∧
      ((process_video ω env tmp fs v (some out) true (some k) vc false).fs).read
        out = some m) := by
  have hvne1 : v ≠ ⟨tmp, v.stem, ".mp3"⟩ :=
    fun h => ne_of_isUnder_false hvdir (congrArg FP.dir h)
  have hvne2 : v ≠ ⟨tmp, v.stem ++ "_isolated", ".mp3"⟩ :=
    fun h => ne_of_isUnder_false hvdir (congrArg FP.dir h)
  have houtne1 : out ≠ ⟨tmp, v.stem, ".mp3"⟩ :=
    fun h => ne_of_isUnder_false houtdir (congrArg FP.dir h)
  have houtne2 : out ≠ ⟨tmp, v.stem ++ "_isolated", ".mp3"⟩ :=
    fun h => ne_of_isUnder_false houtdir (congrArg FP.dir h)
  have hepout : (⟨tmp, v.stem, ".mp3"⟩ : FP) ≠ out := fun h => houtne1 h.symm
  have hipout : (⟨tmp, v.stem ++ "_isolated", ".mp3"⟩ : FP) ≠ out :=
    fun h => houtne2 h.symm
  have hepip : (⟨tmp, v.stem, ".mp3"⟩ : FP) ≠ ⟨tmp, v.stem ++ "_isolated", ".mp3"⟩ := by
    intro h
    exact self_ne_append_len v.stem "_isolated" (by decide) (congrArg FP.stem h)
  have hipd1 : (⟨tmp, v.stem ++ "_isolated", ".mp3"⟩ : FP) ≠
      ⟨v.dir ++ ["temp_files"], v.stem, ".mp3"⟩ :=
    fun h => ne_of_isUnder_false htdir (congrArg FP.dir h).symm
  have houtd1 : out ≠ ⟨v.dir ++ ["temp_files"], v.stem, ".mp3"⟩ :=
    fun h => houtsep (congrArg FP.dir h)
  have houtd2 : out ≠ ⟨v.dir ++ ["temp_files"], v.stem ++ "_isolated", ".mp3"⟩ :=
    fun h => houtsep (congrArg FP.dir h)
  have hd1d2 : (⟨v.dir ++ ["temp_files"], v.stem, ".mp3"⟩ : FP) ≠
      ⟨v.dir ++ ["temp_files"], v.stem ++ "_isolated", ".mp3"⟩ := by
    intro h
    exact self_ne_append_len v.stem "_isolated" (by decide) (congrArg FP.stem h)
  have hfs : fs.fileExists v = true := by unfold FS.fileExists; rw [hv]; rfl
  have he : extract_audio_from_video ω fs v (some ⟨tmp, v.stem, ".mp3"⟩) =
      ⟨.ok ⟨tmp, v.stem, ".mp3"⟩, fs.write ⟨tmp, v.stem, ".mp3"⟩ ab,
       [.subprocess true]⟩ := by
    rw [extract_eval ω fs v (some ⟨tmp, v.stem, ".mp3"⟩) "mp3" vb hv, hex]
    rfl
  have hr2 : (fs.write ⟨tmp, v.stem, ".mp3"⟩ ab).read ⟨tmp, v.stem, ".mp3"⟩ =
      some ab := by
    rw [FS.read_write, if_pos rfl]
  have hi : isolate_voice ω env (fs.write ⟨tmp, v.stem, ".mp3"⟩ ab)
      ⟨tmp, v.stem, ".mp3"⟩ (some ⟨tmp, v.stem ++ "_isolated", ".mp3"⟩) (some k) =
      ⟨.ok ⟨tmp, v.stem ++ "_isolated", ".mp3"⟩,
       (fs.write ⟨tmp, v.stem, ".mp3"⟩ ab).write
         ⟨tmp, v.stem ++ "_isolated", ".mp3"⟩ chunks.flatten,
       [.network k]⟩ := by
    rw [isolate_voice_key_eval ω env _ _ _ k ab hr2, hiso]
    rfl
  have hrv : ((fs.write ⟨tmp, v.stem, ".mp3"⟩ ab).write
      ⟨tmp, v.stem ++ "_isolated", ".mp3"⟩ chunks.flatten).read v = some vb := by
    rw [FS.read_write, if_neg hvne2, FS.read_write, if_neg hvne1, hv]
  have hri : ((fs.write ⟨tmp, v.stem, ".mp3"⟩ ab).write
      ⟨tmp, v.stem ++ "_isolated", ".mp3"⟩ chunks.flatten).read
      ⟨tmp, v.stem ++ "_isolated", ".mp3"⟩ = some chunks.flatten := by
    rw [FS.read_write, if_pos rfl]
  have hre : ((fs.write ⟨tmp, v.stem, ".mp3"⟩ ab).write
      ⟨tmp, v.stem ++ "_isolated", ".mp3"⟩ chunks.flatten).fileExists out = false := by
    unfold FS.fileExists
    rw [FS.read_write, if_neg houtne2, FS.read_write, if_neg houtne1]
    exact hout
  have hmm : merge_video_with_audio ω
      ((fs.write ⟨tmp, v.stem, ".mp3"⟩ ab).write
        ⟨tmp, v.stem ++ "_isolated", ".mp3"⟩ chunks.flatten)
      v ⟨tmp, v.stem ++ "_isolated", ".mp3"⟩ (some out) vc "aac" "192k" false =
      ⟨.ok out,
       ((fs.write ⟨tmp, v.stem, ".mp3"⟩ ab).write
         ⟨tmp, v.stem ++ "_isolated", ".mp3"⟩ chunks.flatten).write out m,
       [.subprocess false]⟩ := by
    rw [merge_eval_free ω _ v _ (some out) vc "aac" "192k" vb chunks.flatten
      hrv hri hre, hm]
    rfl
  have hrd1 : ((((fs.write ⟨tmp, v.stem, ".mp3"⟩ ab).write
      ⟨tmp, v.stem ++ "_isolated", ".mp3"⟩ chunks.flatten).write out m).mkdir
      (v.dir ++ ["temp_files"])).read ⟨tmp, v.stem, ".mp3"⟩ = some ab := by
    rw [FS.read_mkdir, FS.read_write, if_neg hepout, FS.read_write, if_neg hepip,
      FS.read_write, if_pos rfl]
  unfold process_video
  rw [if_pos hfs]
  simp only [Option.getD_some]
  rw [he]
  simp only [Option.getD_some]
  rw [hi]
  simp only [Option.getD_some]
  rw [hmm]
  simp only []
  constructor
  · intro hcf1
    rw [hcf1]
    simp only [if_true]
    refine ⟨by trivial, ?_⟩
    show FS.read (FS.eraseDir _ tmp) out = some m
    rw [FS.read_eraseDir, houtdir]
    simp only [Bool.false_eq_true, if_false]
    rw [FS.read_mkdir, FS.read_write, if_pos rfl]
  · intro hcf1 hcf2
    rw [hcf1, hrd1]
    simp only [Bool.false_eq_true, if_false, Option.getD_some]
    have hrd2 : (((((fs.write ⟨tmp, v.stem, ".mp3"⟩ ab).write
        ⟨tmp, v.stem ++ "_isolated", ".mp3"⟩ chunks.flatten).write out m).mkdir
        (v.dir ++ ["temp_files"])).write
        ⟨v.dir ++ ["temp_files"], v.stem, ".mp3"⟩ ab).read
        ⟨tmp, v.stem ++ "_isolated", ".mp3"⟩ = some chunks.flatten := by
      rw [FS.read_write, if_neg hipd1, FS.read_mkdir, FS.read_write,
        if_neg hipout, FS.read_write, if_pos rfl]
    rw [hcf2, hrd2]
    simp only [Bool.false_eq_true, if_false, Option.getD_some]
    refine ⟨by trivial, ?_, ?_, ?_⟩
    · show FS.read (FS.eraseDir _ tmp) ⟨v.dir ++ ["temp_files"], v.stem, ".mp3"⟩ =
        some ab
      rw [FS.read_eraseDir]
      simp only [htdir, Bool.false_eq_true, if_false]
      rw [FS.read_write, if_neg hd1d2, FS.read_write, if_pos rfl]
    · show FS.read (FS.eraseDir _ tmp)
        ⟨v.dir ++ ["temp_files"], v.stem ++ "_isolated", ".mp3"⟩ =
        some chunks.flatten
      rw [FS.read_eraseDir]
      simp only [htdir, Bool.false_eq_true, if_false]
      rw [FS.read_write, if_pos rfl]
    · show FS.read (FS.eraseDir _ tmp) out = some m
      rw [FS.read_eraseDir, houtdir]
      simp only [Bool.false_eq_true, if_false]
      rw [FS.read_write, if_neg houtd2, FS.read_write, if_neg houtd1,
        FS.read_mkdir, FS.read_write, if_pos rfl]

/-- Witness for the amended C6: a concrete keep_intermediates run whose
copies succeed, with both intermediates present in the sibling directory
and the merged output at the requested path. -/
theorem keep_intermediates_amended_w :
    (process_video ωtest none ["tmp"] fsV vidV (some ⟨["d"], "o", ".mp4"⟩) true
        (some "k") "copy" false).res = .ok ⟨["d"], "o", ".mp4"⟩ ∧
    ((process_video ωtest none ["tmp"] fsV vidV (some ⟨["d"], "o", ".mp4"⟩) true
        (some "k") "copy" false).fs).read ⟨["d", "temp_files"], "v", ".mp3"⟩ =
      some [1] ∧
    ((process_video ωtest none ["tmp"] fsV vidV (some ⟨["d"], "o", ".mp4"⟩) true
        (some "k") "copy" false).fs).read
      ⟨["d", "temp_files"], "v_isolated", ".mp3"⟩ = some [1] ∧
    ((process_video ωtest none ["tmp"] fsV vidV (some ⟨["d"], "o", ".mp4"⟩) true
        (some "k") "copy" false).fs).read ⟨["d"], "o", ".mp4"⟩ = some [1, 1] := by
  have h := keep_intermediates_amended ωtest none ["tmp"] fsV vidV
    ⟨["d"], "o", ".mp4"⟩ "k" "copy" [1] [1] [1, 1] [[1]] rfl (by decide) (by decide)
    (by decide) (by decide) (by decide) rfl rfl rfl
  exact h.2 rfl rfl

/-- Two files of the same directory with the same derived batch output
are the same file. -/
theorem derivedOut_inj {od : List String} {u v : FP} (hdir : u.dir = v.dir)
    (h : derivedOut od u = derivedOut od v) : u = v := by
  unfold derivedOut at h
  injection h with h1 h2 h3
  have h4 := append_cancel_r u.stem v.stem "_clean" h2
  cases u
  cases v
  simp only at hdir h3 h4
  rw [hdir, h3, h4]

/-- A discovered file is a listed file of the input directory. -/
theorem mem_discover {fs : FS} {d : List String} {exts : List String} {p : FP}
    (h : p ∈ discoverVideos fs d exts) : p ∈ fs.files.map Prod.fst ∧ p.dir = d := by
  unfold discoverVideos at h
  rw [List.mem_filter] at h
  refine ⟨h.1, ?_⟩
  have h2 := h.2
  rw [Bool.and_eq_true, decide_eq_true_iff] at h2
  exact h2.1

/-- The batch loop distributes over list append. -/
theorem batchLoop_append (ω : Oracle) (env : Option String) (tmps : Nat → List String)
    (od : List String) (key : Option String) (vc : String) (kt ow : Bool) :
    ∀ (L1 L2 : List FP) (i : Nat) (fs : FS),
    batchLoop ω env tmps od key vc kt ow (L1 ++ L2) i fs =
      ((batchLoop ω env tmps od key vc kt ow L1 i fs).1 ++
        (batchLoop ω env tmps od key vc kt ow L2 (i + L1.length)
          (batchLoop ω env tmps od key vc kt ow L1 i fs).2).1,
       (batchLoop ω env tmps od key vc kt ow L2 (i + L1.length)
          (batchLoop ω env tmps od key vc kt ow L1 i fs).2).2) := by
  intro L1
  induction L1 with
  | nil => intro L2 i fs; simp [batchLoop]
  | cons v rest ih =>
    intro L2 i fs
    have harith : i + 1 + rest.length = i + (rest.length + 1) := by omega
    simp only [List.cons_append, batchLoop]
    rcases hres : (process_video ω env (tmps i) fs v (some (derivedOut od v))
        kt key vc ow).res with err | p
    · simp only [List.append_eq]
      rw [ih]
      simp only [List.length_cons, harith]
    · simp only [List.append_eq]
      rw [ih]
      simp only [List.length_cons, harith, List.cons_append]

/-- The batch loop on a list of items that all succeed: it returns the
derived output of every item in order, and outside the temporary scopes it
changes only those derived output paths. -/
theorem batchLoop_all_ok (ω : Oracle) (env : Option String) (tmps : Nat → List String)
    (d od : List String) (k vc : String)
    (htmpd : ∀ j, isUnder (tmps j) d = false)
    (htmpo : ∀ j, isUnder (tmps j) od = false)
    (hodd : od ≠ d) :
    ∀ (L : List FP) (i : Nat) (fs : FS),
    (∀ v ∈ L, v.dir = d) → L.Nodup →
    (∀ v ∈ L, ∃ vb ab chunks m, fs.read v = some vb ∧
       ω.extractResult vb = .ok ab ∧ ω.isolateChunks k ab = .ok chunks ∧
       ω.mergeResult vb chunks.flatten = .ok m) →
    (∀ v ∈ L, fs.fileExists (derivedOut od v) = false) →
    (batchLoop ω env tmps od (some k) vc false false L i fs).1 =
      L.map (derivedOut od) ∧
    ∀ p, p.dir = d ∨ p.dir = od → p ∉ L.map (derivedOut od) →
      ((batchLoop ω env tmps od (some k) vc false false L i fs).2).read p =
        fs.read p := by
  intro L
  induction L with
  | nil =>
    intro i fs _ _ _ _
    exact ⟨rfl, fun p _ _ => rfl⟩
  | cons v rest ih =>
    intro i fs hL hnd hgood hnoout
    obtain ⟨vb, ab, chunks, m, hv, hex, hiso, hm⟩ :=
      hgood v (List.mem_cons_self v rest)
    have hvd : v.dir = d := hL v (List.mem_cons_self v rest)
    have hvdir : isUnder (tmps i) v.dir = false := by rw [hvd]; exact htmpd i
    have houtdir : isUnder (tmps i) (derivedOut od v).dir = false := htmpo i
    have hout : fs.fileExists (derivedOut od v) = false :=
      hnoout v (List.mem_cons_self v rest)
    have hpo := process_video_ok ω env (tmps i) fs v (derivedOut od v) k vc
      vb ab m chunks hv hvdir houtdir hout hex hiso hm
    have hvnotin : v ∉ rest := (List.nodup_cons.mp hnd).1
    have hL2 : ∀ u ∈ rest, u.dir = d := fun u hu => hL u (List.mem_cons_of_mem v hu)
    have hgood2 : ∀ u ∈ rest, ∃ vb2 ab2 chunks2 m2,
        ((process_video ω env (tmps i) fs v (some (derivedOut od v)) false (some k)
          vc false).fs).read u = some vb2 ∧
        ω.extractResult vb2 = .ok ab2 ∧ ω.isolateChunks k ab2 = .ok chunks2 ∧
        ω.mergeResult vb2 chunks2.flatten = .ok m2 := by
      intro u hu
      obtain ⟨vb2, ab2, chunks2, m2, hu1, hu2, hu3, hu4⟩ :=
        hgood u (List.mem_cons_of_mem v hu)
      have hud : u.dir = d := hL2 u hu
      have hune : u ≠ derivedOut od v :=
        fun h => hodd ((congrArg FP.dir h).symm.trans hud)
      refine ⟨vb2, ab2, chunks2, m2, ?_, hu2, hu3, hu4⟩
      rw [hpo.2 u (by rw [hud]; exact htmpd i), if_neg hune]
      exact hu1
    have hnoout2 : ∀ u ∈ rest,
        ((process_video ω env (tmps i) fs v (some (derivedOut od v)) false (some k)
          vc false).fs).fileExists (derivedOut od u) = false := by
      intro u hu
      have hune2 : derivedOut od u ≠ derivedOut od v := by
        intro h
        have h2 := derivedOut_inj (by rw [hL2 u hu, hvd]) h
        exact hvnotin (h2 ▸ hu)
      unfold FS.fileExists
      rw [hpo.2 (derivedOut od u) (htmpo i), if_neg hune2]
      exact hnoout u (List.mem_cons_of_mem v hu)
    have hrest := ih (i + 1)
      ((process_video ω env (tmps i) fs v (some (derivedOut od v)) false (some k)
        vc false).fs) hL2 (List.Nodup.of_cons hnd) hgood2 hnoout2
    simp only [batchLoop]
    rw [hpo.1]
    simp only []
    constructor
    · rw [hrest.1]
      rfl
    · intro p hp hpn
      rw [List.map_cons, List.mem_cons, not_or] at hpn
      rw [hrest.2 p hp hpn.2]
      have hcond : isUnder (tmps i) p.dir = false := by
        rcases hp with h | h
        · rw [h]; exact htmpd i
        · rw [h]; exact htmpo i
      rw [hpo.2 p hcond, if_neg hpn.1]

/-- C2: batch isolation law.  Over a directory whose discovery yields N
eligible files of which exactly one fails at the isolation stage (all the
others completing every stage), batch_process_videos still returns
normally (the failure is caught at the item boundary) with a list of
length N-1 that contains the output path derived from each surviving
file's own name, in discovery order, and no path derived from the failing
file. -/
theorem batch_isolation_law (ω : Oracle) (env : Option String)
    (tmps : Nat → List String) (fs : FS) (d od : List String) (k : String)
    (g1 g2 : List FP) (bad : FP)
    (hdir : fs.isDir d = true)
    (hkeys : (fs.files.map Prod.fst).Nodup)
    (hdisc : discoverVideos fs d video_extensions = g1 ++ bad :: g2)
    (hodd : od ≠ d)
    (htmpd : ∀ j, isUnder (tmps j) d = false)
    (htmpo : ∀ j, isUnder (tmps j) od = false)
    (hnoout : ∀ v ∈ g1 ++ bad :: g2, fs.fileExists (derivedOut od v) = false)
    (hgood : ∀ v ∈ g1 ++ g2, ∃ vb ab chunks m, fs.read v = some vb ∧
       ω.extractResult vb = .ok ab ∧ ω.isolateChunks k ab = .ok chunks ∧
       ω.mergeResult vb chunks.flatten = .ok m)
    (hbad : ∃ vb ab msg, fs.read bad = some vb ∧ ω.extractResult vb = .ok ab ∧
       ω.isolateChunks k ab = .error msg) :
    (batch_process_videos ω env tmps fs d (some od) none video_extensions (some k)
        "copy" false false).1 = .ok ((g1 ++ g2).map (derivedOut od)) ∧
    ((g1 ++ g2).map (derivedOut od)).length = (g1 ++ bad :: g2).length - 1 ∧
    derivedOut od bad ∉ (g1 ++ g2).map (derivedOut od) := by
  have hvids : ∀ v ∈ g1 ++ bad :: g2, v.dir = d := by
    intro v hv
    exact (mem_discover (by rw [hdisc]; exact hv)).2
  have hnd : (g1 ++ bad :: g2).Nodup := by
    rw [← hdisc]
    unfold discoverVideos
    exact hkeys.filter _
  obtain ⟨hnd1, hnd23, hdisj⟩ := List.nodup_append.mp hnd
  obtain ⟨hbadg2, hnd2⟩ := List.nodup_cons.mp hnd23
  obtain ⟨vb, ab, msg, hbv, hbex, hbiso⟩ := hbad
  have hbd : bad.dir = d :=
    hvids bad (List.mem_append_right g1 (List.mem_cons_self bad g2))
  -- the loop over the leading healthy segment
  have hA := batchLoop_all_ok ω env tmps d od k "copy" htmpd htmpo hodd g1 0
    (fs.mkdir od)
    (fun v hv => hvids v (List.mem_append_left _ hv))
    hnd1
    (fun v hv => hgood v (List.mem_append_left _ hv))
    (fun v hv => hnoout v (List.mem_append_left _ hv))
  have hbadnot : bad ∉ g1.map (derivedOut od) := by
    intro hmem
    obtain ⟨u, _, hue⟩ := List.mem_map.mp hmem
    exact hodd ((congrArg FP.dir hue).trans hbd)
  have hS1read : ((batchLoop ω env tmps od (some k) "copy" false false g1 0
      (fs.mkdir od)).2).read bad = fs.read bad :=
    hA.2 bad (Or.inl hbd) hbadnot
  have hfail := process_video_isofail ω env (tmps (0 + g1.length))
    ((batchLoop ω env tmps od (some k) "copy" false false g1 0 (fs.mkdir od)).2)
    bad (derivedOut od bad) k "copy" msg vb ab (by rw [hS1read]; exact hbv)
    hbex hbiso
  -- hypotheses for the trailing healthy segment
  have hg2notg1 : ∀ u ∈ g2, u ∉ g1 := by
    intro u hu hu1
    exact hdisj hu1 (List.mem_cons_of_mem bad hu)
  have hg2d : ∀ u ∈ g2, u.dir = d := fun u hu =>
    hvids u (List.mem_append_right g1 (List.mem_cons_of_mem bad hu))
  have hnotmapg1 : ∀ u ∈ g2, u ∉ g1.map (derivedOut od) := by
    intro u hu hmem
    obtain ⟨w, _, hwe⟩ := List.mem_map.mp hmem
    exact hodd ((congrArg FP.dir hwe).trans (hg2d u hu))
  have hdernotmapg1 : ∀ u ∈ g2, derivedOut od u ∉ g1.map (derivedOut od) := by
    intro u hu hmem
    obtain ⟨w, hw, hwe⟩ := List.mem_map.mp hmem
    have h2 := derivedOut_inj (by rw [hvids w (List.mem_append_left _ hw),
      hg2d u hu]) hwe
    exact hg2notg1 u hu (h2 ▸ hw)
  have hB := batchLoop_all_ok ω env tmps d od k "copy" htmpd htmpo hodd g2
    (0 + g1.length + 1)
    ((process_video ω env (tmps (0 + g1.length))
      ((batchLoop ω env tmps od (some k) "copy" false false g1 0 (fs.mkdir od)).2)
      bad (some (derivedOut od bad)) false (some k) "copy" false).fs)
    hg2d hnd2
    (by
      intro u hu
      obtain ⟨vb2, ab2, chunks2, m2, hu1, hu2, hu3, hu4⟩ :=
        hgood u (List.mem_append_right g1 hu)
      refine ⟨vb2, ab2, chunks2, m2, ?_, hu2, hu3, hu4⟩
      rw [hfail.2 u (by rw [hg2d u hu]; exact htmpd (0 + g1.length)),
        hA.2 u (Or.inl (hg2d u hu)) (hnotmapg1 u hu)]
      exact hu1)
    (by
      intro u hu
      unfold FS.fileExists
      rw [hfail.2 (derivedOut od u) (htmpo (0 + g1.length)),
        hA.2 (derivedOut od u) (Or.inr rfl) (hdernotmapg1 u hu)]
      exact hnoout u (List.mem_append_right g1 (List.mem_cons_of_mem bad hu)))
  refine ⟨?_, ?_, ?_⟩
  · unfold batch_process_videos
    rw [if_pos hdir]
    simp only [Option.getD_some, Bool.and_false, Bool.false_eq_true, if_false]
    have hdm : discoverVideos (fs.mkdir od) d video_extensions =
        g1 ++ bad :: g2 := hdisc
    rw [hdm, batchLoop_append ω env tmps od (some k) "copy" false false g1
      (bad :: g2) 0 (fs.mkdir od)]
    simp only [Except.ok.injEq]
    rw [hA.1]
    simp only [batchLoop]
    rw [hfail.1]
    simp only []
    rw [hB.1, List.map_append]
  · simp only [List.length_map, List.length_append, List.length_cons]
    omega
  · intro hmem
    obtain ⟨u, hu, hue⟩ := List.mem_map.mp hmem
    have hud : u.dir = d := by
      rcases List.mem_append.mp hu with h | h
      · exact hvids u (List.mem_append_left _ h)
      · exact hg2d u h
    have h2 : u = bad := derivedOut_inj (by rw [hud, hbd]) hue
    subst h2
    rcases List.mem_append.mp hu with h | h
    · exact hdisj h (List.mem_cons_self u g2)
    · exact hbadg2 h

/-- Witness for C2: a concrete batch of three eligible files where the
middle file's isolation fails; the result has the two surviving derived
paths and not the failing file's. -/
theorem batch_isolation_law_w :
    (batch_process_videos ωbatch none tmps0 fsB ["inp"] (some ["out"]) none
        video_extensions (some "k") "copy" false false).1 =
      .ok (([fpA] ++ [fpC]).map (derivedOut ["out"])) ∧
    (([fpA] ++ [fpC]).map (derivedOut ["out"])).length =
      ([fpA] ++ fpB :: [fpC]).length - 1 ∧
    derivedOut ["out"] fpB ∉ ([fpA] ++ [fpC]).map (derivedOut ["out"]) := by
  refine batch_isolation_law ωbatch none tmps0 fsB ["inp"] ["out"] "k" [fpA] [fpC]
    fpB (by decide) (by decide) (by decide) (by decide) (fun _ => rfl)
    (fun _ => rfl) (by decide) ?_ ⟨[9], [9], "service failure", rfl, rfl, rfl⟩
  intro v hv
  have hv2 : v = fpA ∨ v = fpC := by
    rcases List.mem_append.mp hv with h | h
    · exact Or.inl (List.mem_singleton.mp h)
    · exact Or.inr (List.mem_singleton.mp h)
  rcases hv2 with h | h
  · subst h
    exact ⟨[1], [1], [[1]], [1, 1], rfl, rfl, rfl, rfl⟩
  · subst h
    exact ⟨[2], [2], [[2]], [2, 2], rfl, rfl, rfl, rfl⟩

/-- Reading ignores the directory record. -/
theorem withDirs_read (fs : FS) (D : List (List String)) :
    (FS.withDirs fs D).read = fs.read := rfl

/-- File existence ignores the directory record. -/
theorem withDirs_fileExists (fs : FS) (D : List (List String)) :
    (FS.withDirs fs D).fileExists = fs.fileExists := rfl

/-- Extraction ignores and preserves the directory record. -/
theorem extract_withDirs (ω : Oracle) (fs : FS) (D : List (List String))
    (v : FP) (outp : Option FP) (fmt : String) :
    extract_audio_from_video ω (FS.withDirs fs D) v outp fmt =
      ⟨(extract_audio_from_video ω fs v outp fmt).res,
       FS.withDirs ((extract_audio_from_video ω fs v outp fmt).fs) D,
       (extract_audio_from_video ω fs v outp fmt).calls⟩ := by
  unfold extract_audio_from_video
  rw [withDirs_read]
  rcases hr : fs.read v with _ | c
  · rfl
  · simp only []
    rcases he : ω.extractResult c with m | m <;> rfl

/-- Isolation ignores and preserves the directory record. -/
theorem isolate_withDirs (ω : Oracle) (env : Option String) (fs : FS)
    (D : List (List String)) (a : FP) (outp : Option FP) (key : Option String) :
    isolate_voice ω env (FS.withDirs fs D) a outp key =
      ⟨(isolate_voice ω env fs a outp key).res,
       FS.withDirs ((isolate_voice ω env fs a outp key).fs) D,
       (isolate_voice ω env fs a outp key).calls⟩ := by
  unfold isolate_voice
  rw [withDirs_read]
  rcases hr : fs.read a with _ | c
  · rfl
  · simp only []
    rcases key with _ | k
    · rcases env with _ | e
      · rfl
      · simp only []
        by_cases he : e = ""
        · rw [if_pos he, if_pos he]
        · rw [if_neg he, if_neg he]
          rcases hi : ω.isolateChunks e c with m | m <;> rfl
    · simp only []
      rcases hi : ω.isolateChunks k c with m | m <;> rfl

/-- Merging ignores and preserves the directory record. -/
theorem merge_withDirs (ω : Oracle) (fs : FS) (D : List (List String))
    (v a : FP) (outp : Option FP) (vc ac abr : String) (ow : Bool) :
    merge_video_with_audio ω (FS.withDirs fs D) v a outp vc ac abr ow =
      ⟨(merge_video_with_audio ω fs v a outp vc ac abr ow).res,
       FS.withDirs ((merge_video_with_audio ω fs v a outp vc ac abr ow).fs) D,
       (merge_video_with_audio ω fs v a outp vc ac abr ow).calls⟩ := by
  unfold merge_video_with_audio
  rw [withDirs_read, withDirs_fileExists]
  rcases hr1 : fs.read v with _ | c1
  · rfl
  simp only []
  rcases hr2 : fs.read a with _ | c2
  · rfl
  simp only []
  by_cases hc0 : (fs.fileExists (outp.getD (v.withStem (v.stem ++ "_clean"))) &&
      !ow) = true
  · rw [if_pos hc0]
    by_cases hc1 : (fs.fileExists
        ((outp.getD (v.withStem (v.stem ++ "_clean"))).withStem
          ((outp.getD (v.withStem (v.stem ++ "_clean"))).stem ++ "_new")) &&
        !ow) = true
    · rw [if_pos hc1, if_pos hc1]
    · rw [if_neg hc1, if_neg hc1]
      rcases hm : ω.mergeResult c1 c2 with m | m <;> rfl
  · rw [if_neg hc0, if_neg hc0, if_neg hc0]
    rcases hm : ω.mergeResult c1 c2 with m | m <;> rfl

/-- A filesystem whose files agree with another is that filesystem with a
different directory record. -/
theorem FS.eq_withDirs_of_files_eq {fsa fsb : FS} (h : fsa.files = fsb.files) :
    fsa = FS.withDirs fsb fsa.dirs := by
  cases fsa
  cases fsb
  simp only at h
  unfold FS.withDirs
  simp only [h]

/-- The single-item pipeline ignores the directory record: the outcome and
the resulting files are unchanged under any directory record. -/
theorem process_video_withDirs (ω : Oracle) (env : Option String)
    (tmp : List String) (fs : FS) (D : List (List String)) (v : FP)
    (outp : Option FP) (kt : Bool) (key : Option String) (vc : String) (ow : Bool) :
    (process_video ω env tmp (FS.withDirs fs D) v outp kt key vc ow).res =
      (process_video ω env tmp fs v outp kt key vc ow).res ∧
    ((process_video ω env tmp (FS.withDirs fs D) v outp kt key vc ow).fs).files =
      ((process_video ω env tmp fs v outp kt key vc ow).fs).files := by
  unfold process_video
  rw [withDirs_fileExists]
  by_cases hfs : fs.fileExists v = true
  · rw [if_pos hfs, if_pos hfs]
    simp only []
    rw [extract_withDirs ω fs D v (some ⟨tmp, v.stem, ".mp3"⟩)]
    simp only []
    rcases hres : (extract_audio_from_video ω fs v (some ⟨tmp, v.stem, ".mp3"⟩)
        "mp3").res with err | ep
    · exact ⟨rfl, rfl⟩
    · simp only []
      rw [isolate_withDirs]
      simp only []
      rcases hres2 : (isolate_voice ω env
          (extract_audio_from_video ω fs v (some ⟨tmp, v.stem, ".mp3"⟩) "mp3").fs ep
          (some ⟨tmp, v.stem ++ "_isolated", ".mp3"⟩) key).res with err2 | ip
      · exact ⟨rfl, rfl⟩
      · simp only []
        rw [merge_withDirs]
        simp only []
        rcases hres3 : (merge_video_with_audio ω
            (isolate_voice ω env
              (extract_audio_from_video ω fs v (some ⟨tmp, v.stem, ".mp3"⟩) "mp3").fs
              ep (some ⟨tmp, v.stem ++ "_isolated", ".mp3"⟩) key).fs v ip
            (some (outp.getD (v.withStem (v.stem ++ "_clean")))) vc "aac" "192k"
            ow).res with err3 | fp
        · exact ⟨rfl, rfl⟩
        · simp only []
          rcases kt with _ | _
          · exact ⟨rfl, rfl⟩
          · by_cases hcf1 : ω.copyFails ep
                ⟨v.dir ++ ["temp_files"], ep.stem, ep.ext⟩ = true
            · rw [hcf1]
              exact ⟨rfl, rfl⟩
            · rw [Bool.not_eq_true] at hcf1
              rw [hcf1]
              simp only [Bool.false_eq_true, if_false]
              by_cases hcf2 : ω.copyFails ip
                  ⟨v.dir ++ ["temp_files"], ip.stem, ip.ext⟩ = true
              · rw [hcf2]
                exact ⟨rfl, rfl⟩
              · rw [Bool.not_eq_true] at hcf2
                rw [hcf2]
                simp only [Bool.false_eq_true, if_false]
                exact ⟨rfl, rfl⟩
  · rw [Bool.not_eq_true] at hfs
    rw [hfs]
    simp only [Bool.false_eq_true, if_false]
    exact ⟨by trivial, by trivial⟩

/-- Temporary-scope teardown keeps the directory record. -/
theorem eraseDir_dirs (fs : FS) (t : List String) :
    (fs.eraseDir t).dirs = fs.dirs := rfl

/-- Writing a file keeps the directory record. -/
theorem write_dirs (fs : FS) (p : FP) (c : List Nat) :
    (fs.write p c).dirs = fs.dirs := rfl

/-- mkdir extends the directory record. -/
theorem mkdir_dirs (fs : FS) (dd : List String) :
    (fs.mkdir dd).dirs = dd :: fs.dirs := rfl

/-- Discovery ignores the directory record. -/
theorem discover_withDirs (fs : FS) (D : List (List String)) (d : List String)
    (exts : List String) :
    discoverVideos (FS.withDirs fs D) d exts = discoverVideos fs d exts := rfl

/-- The batch loop ignores the directory record: result list and files are
unchanged under any directory record. -/
theorem batchLoop_withDirs (ω : Oracle) (env : Option String)
    (tmps : Nat → List String) (od : List String) (key : Option String)
    (vc : String) (kt ow : Bool) :
    ∀ (L : List FP) (i : Nat) (fs : FS) (D : List (List String)),
    (batchLoop ω env tmps od key vc kt ow L i (FS.withDirs fs D)).1 =
      (batchLoop ω env tmps od key vc kt ow L i fs).1 ∧
    ((batchLoop ω env tmps od key vc kt ow L i (FS.withDirs fs D)).2).files =
      ((batchLoop ω env tmps od key vc kt ow L i fs).2).files := by
  intro L
  induction L with
  | nil => intro i fs D; exact ⟨rfl, rfl⟩
  | cons v rest ih =>
    intro i fs D
    have hp := process_video_withDirs ω env (tmps i) fs D v
      (some (derivedOut od v)) kt key vc ow
    simp only [batchLoop]
    rw [hp.1]
    rcases hres : (process_video ω env (tmps i) fs v (some (derivedOut od v))
        kt key vc ow).res with err | p
    · simp only []
      rw [FS.eq_withDirs_of_files_eq hp.2]
      exact ih (i + 1) _ _
    · simp only []
      rw [FS.eq_withDirs_of_files_eq hp.2]
      have h2 := ih (i + 1)
        ((process_video ω env (tmps i) fs v (some (derivedOut od v)) kt key vc
          ow).fs)
        ((process_video ω env (tmps i) (FS.withDirs fs D) v
          (some (derivedOut od v)) kt key vc ow).fs).dirs
      exact ⟨by rw [h2.1], h2.2⟩

/-- Extraction keeps the directory record unchanged. -/
theorem extract_fs_dirs (ω : Oracle) (fs : FS) (v : FP) (outp : Option FP)
    (fmt : String) :
    ((extract_audio_from_video ω fs v outp fmt).fs).dirs = fs.dirs := by
  unfold extract_audio_from_video
  rcases fs.read v with _ | c
  · rfl
  · simp only []
    rcases ω.extractResult c with m | m <;> rfl

/-- Isolation keeps the directory record unchanged. -/
theorem isolate_fs_dirs (ω : Oracle) (env : Option String) (fs : FS) (a : FP)
    (outp : Option FP) (key : Option String) :
    ((isolate_voice ω env fs a outp key).fs).dirs = fs.dirs := by
  unfold isolate_voice
  rcases fs.read a with _ | c
  · rfl
  · simp only []
    rcases key with _ | k
    · rcases env with _ | e
      · rfl
      · simp only []
        by_cases he : e = ""
        · rw [if_pos he]
        · rw [if_neg he]
          rcases ω.isolateChunks e c with m | m <;> rfl
    · simp only []
      rcases ω.isolateChunks k c with m | m <;> rfl

/-- Merging keeps the directory record unchanged. -/
theorem merge_fs_dirs (ω : Oracle) (fs : FS) (v a : FP) (outp : Option FP)
    (vc ac abr : String) (ow : Bool) :
    ((merge_video_with_audio ω fs v a outp vc ac abr ow).fs).dirs = fs.dirs := by
  unfold merge_video_with_audio
  rcases fs.read v with _ | c1
  · rfl
  simp only []
  rcases fs.read a with _ | c2
  · rfl
  simp only []
  by_cases hc0 : (fs.fileExists (outp.getD (v.withStem (v.stem ++ "_clean"))) &&
      !ow) = true
  · rw [if_pos hc0]
    by_cases hc1 : (fs.fileExists
        ((outp.getD (v.withStem (v.stem ++ "_clean"))).withStem
          ((outp.getD (v.withStem (v.stem ++ "_clean"))).stem ++ "_new")) &&
        !ow) = true
    · rw [if_pos hc1]
    · rw [if_neg hc1]
      rcases ω.mergeResult c1 c2 with m | m <;> rfl
  · rw [if_neg hc0, if_neg hc0]
    rcases ω.mergeResult c1 c2 with m | m <;> rfl

/-- The single-item pipeline never deletes a created directory. -/
theorem process_video_dirs_sub (ω : Oracle) (env : Option String)
    (tmp : List String) (fs : FS) (v : FP) (outp : Option FP) (kt : Bool)
    (key : Option String) (vc : String) (ow : Bool) (x : List String)
    (hx : x ∈ fs.dirs) :
    x ∈ ((process_video ω env tmp fs v outp kt key vc ow).fs).dirs := by
  unfold process_video
  by_cases hfs : fs.fileExists v = true
  · rw [if_pos hfs]
    simp only []
    rcases hres : (extract_audio_from_video ω fs v (some ⟨tmp, v.stem, ".mp3"⟩)
        "mp3").res with err | ep
    · rw [eraseDir_dirs, extract_fs_dirs]
      exact hx
    · simp only []
      rcases hres2 : (isolate_voice ω env
          (extract_audio_from_video ω fs v (some ⟨tmp, v.stem, ".mp3"⟩) "mp3").fs ep
          (some ⟨tmp, v.stem ++ "_isolated", ".mp3"⟩) key).res with err2 | ip
      · rw [eraseDir_dirs, isolate_fs_dirs, extract_fs_dirs]
        exact hx
      · simp only []
        rcases hres3 : (merge_video_with_audio ω
            (isolate_voice ω env
              (extract_audio_from_video ω fs v (some ⟨tmp, v.stem, ".mp3"⟩) "mp3").fs
              ep (some ⟨tmp, v.stem ++ "_isolated", ".mp3"⟩) key).fs v ip
            (some (outp.getD (v.withStem (v.stem ++ "_clean")))) vc "aac" "192k"
            ow).res with err3 | fp
        · rw [eraseDir_dirs, merge_fs_dirs, isolate_fs_dirs, extract_fs_dirs]
          exact hx
        · simp only []
          rcases kt with _ | _
          · rw [if_neg Bool.false_ne_true]
            rw [eraseDir_dirs, merge_fs_dirs, isolate_fs_dirs, extract_fs_dirs]
            exact hx
          · rw [if_pos rfl]
            have hmem : x ∈ ((merge_video_with_audio ω
                (isolate_voice ω env
                  (extract_audio_from_video ω fs v (some ⟨tmp, v.stem, ".mp3"⟩)
                    "mp3").fs
                  ep (some ⟨tmp, v.stem ++ "_isolated", ".mp3"⟩) key).fs v ip
                (some (outp.getD (v.withStem (v.stem ++ "_clean")))) vc "aac"
                "192k" ow).fs).dirs := by
              rw [merge_fs_dirs, isolate_fs_dirs, extract_fs_dirs]
              exact hx
            by_cases hcf1 : ω.copyFails ep
                ⟨v.dir ++ ["temp_files"], ep.stem, ep.ext⟩ = true
            · rw [hcf1, if_pos rfl]
              rw [eraseDir_dirs, mkdir_dirs]
              exact List.mem_cons_of_mem _ hmem
            · rw [Bool.not_eq_true] at hcf1
              rw [hcf1]
              simp only [Bool.false_eq_true, if_false]
              by_cases hcf2 : ω.copyFails ip
                  ⟨v.dir ++ ["temp_files"], ip.stem, ip.ext⟩ = true
              · rw [hcf2, if_pos rfl]
                rw [eraseDir_dirs, write_dirs, mkdir_dirs]
                exact List.mem_cons_of_mem _ hmem
              · rw [Bool.not_eq_true] at hcf2
                rw [hcf2]
                simp only [Bool.false_eq_true, if_false]
                rw [eraseDir_dirs, write_dirs, write_dirs, mkdir_dirs]
                exact List.mem_cons_of_mem _ hmem
  · rw [Bool.not_eq_true] at hfs
    rw [hfs]
    simp only [Bool.false_eq_true, if_false]
    exact hx

/-- The batch loop never deletes a created directory. -/
theorem batchLoop_dirs_sub (ω : Oracle) (env : Option String)
    (tmps : Nat → List String) (od : List String) (key : Option String)
    (vc : String) (kt ow : Bool) :
    ∀ (L : List FP) (i : Nat) (fs : FS) (x : List String), x ∈ fs.dirs →
    x ∈ ((batchLoop ω env tmps od key vc kt ow L i fs).2).dirs := by
  intro L
  induction L with
  | nil => intro i fs x hx; exact hx
  | cons v rest ih =>
    intro i fs x hx
    simp only [batchLoop]
    rcases hres : (process_video ω env (tmps i) fs v (some (derivedOut od v))
        kt key vc ow).res with err | p
    · simp only []
      exact ih (i + 1) _ x
        (process_video_dirs_sub ω env (tmps i) fs v _ kt key vc ow x hx)
    · simp only []
      exact ih (i + 1) _ x
        (process_video_dirs_sub ω env (tmps i) fs v _ kt key vc ow x hx)

/-- C10: the temp_dir parameter of batch_process_videos has no effect on
any per-item pipeline run or on the returned list — two runs differing
only in temp_dir return the same value and leave the same files; its only
effect is that when it is None and keep_temp_files is true a temp_files
directory is created under the input directory.  The value is never
passed to process_video, which always runs in its own ephemeral
temporary directory. -/
theorem batch_tempdir_frame (ω : Oracle) (env : Option String)
    (tmps : Nat → List String) (fs : FS) (d : List String)
    (odo : Option (List String)) (t1 t2 : Option (List String))
    (exts : List String) (key : Option String) (vc : String) (keep ow : Bool) :
    ((batch_process_videos ω env tmps fs d odo t1 exts key vc keep ow).1 =
      (batch_process_videos ω env tmps fs d odo t2 exts key vc keep ow).1) ∧
    (((batch_process_videos ω env tmps fs d odo t1 exts key vc keep ow).2).files =
      ((batch_process_videos ω env tmps fs d odo t2 exts key vc keep ow).2).files) ∧
    (keep = true → fs.isDir d = true →
      (d ++ ["temp_files"]) ∈
        ((batch_process_videos ω env tmps fs d odo none exts key vc keep
          ow).2).dirs) := by
  by_cases hdir : fs.isDir d = true
  · have hrun : ∀ t : Option (List String),
        (batch_process_videos ω env tmps fs d odo t exts key vc keep ow).1 =
          .ok ((batchLoop ω env tmps (odo.getD (d ++ ["processed_videos"])) key vc
            keep ow
            (discoverVideos (fs.mkdir (odo.getD (d ++ ["processed_videos"]))) d exts)
            0 (fs.mkdir (odo.getD (d ++ ["processed_videos"])))).1) ∧
        ((batch_process_videos ω env tmps fs d odo t exts key vc keep ow).2).files =
          ((batchLoop ω env tmps (odo.getD (d ++ ["processed_videos"])) key vc
            keep ow
            (discoverVideos (fs.mkdir (odo.getD (d ++ ["processed_videos"]))) d exts)
            0 (fs.mkdir (odo.getD (d ++ ["processed_videos"])))).2).files := by
      intro t
      unfold batch_process_videos
      rw [if_pos hdir]
      simp only []
      by_cases hc : (decide (t = none) && keep) = true
      · rw [if_pos hc]
        have h2 := FS.eq_withDirs_of_files_eq
          (show ((fs.mkdir (odo.getD (d ++ ["processed_videos"]))).mkdir
              (d ++ ["temp_files"])).files =
            (fs.mkdir (odo.getD (d ++ ["processed_videos"]))).files from rfl)
        rw [h2, discover_withDirs]
        have h3 := batchLoop_withDirs ω env tmps
          (odo.getD (d ++ ["processed_videos"])) key vc keep ow
          (discoverVideos (fs.mkdir (odo.getD (d ++ ["processed_videos"]))) d exts)
          0 (fs.mkdir (odo.getD (d ++ ["processed_videos"])))
          ((fs.mkdir (odo.getD (d ++ ["processed_videos"]))).mkdir
            (d ++ ["temp_files"])).dirs
        exact ⟨by rw [h3.1], h3.2⟩
      · rw [if_neg hc]
        exact ⟨rfl, rfl⟩
    refine ⟨?_, ?_, ?_⟩
    · rw [(hrun t1).1, (hrun t2).1]
    · rw [(hrun t1).2, (hrun t2).2]
    · intro hkeep _
      unfold batch_process_videos
      rw [if_pos hdir]
      simp only []
      rw [if_pos (by rw [hkeep]; rfl)]
      exact batchLoop_dirs_sub ω env tmps _ key vc keep ow _ 0 _ _
        (List.mem_cons_self _ _)
  · have hb : ∀ t, batch_process_videos ω env tmps fs d odo t exts key vc keep ow =
        (.error (.notADirectory d), fs) := by
      intro t
      unfold batch_process_videos
      rw [if_neg hdir]
    refine ⟨by rw [hb t1, hb t2], by rw [hb t1, hb t2], fun _ h => absurd h hdir⟩

/-- Witness for C10: a concrete batch directory, run once with an explicit
temp_dir and once without; same returned value, same files, and the
temp_files directory is recorded in the keep_temp_files run. -/
theorem batch_tempdir_frame_w :
    ((batch_process_videos ωtest none tmps0 fsB ["inp"] none (some ["x"])
        video_extensions (some "k") "copy" true false).1 =
      (batch_process_videos ωtest none tmps0 fsB ["inp"] none none
        video_extensions (some "k") "copy" true false).1) ∧
    (((batch_process_videos ωtest none tmps0 fsB ["inp"] none (some ["x"])
        video_extensions (some "k") "copy" true false).2).files =
      ((batch_process_videos ωtest none tmps0 fsB ["inp"] none none
        video_extensions (some "k") "copy" true false).2).files) ∧
    (["inp"] ++ ["temp_files"]) ∈
      ((batch_process_videos ωtest none tmps0 fsB ["inp"] none none
        video_extensions (some "k") "copy" true false).2).dirs := by
  have h := batch_tempdir_frame ωtest none tmps0 fsB ["inp"] none (some ["x"])
    none video_extensions (some "k") "copy" true false
  exact ⟨h.1, h.2.1, h.2.2 rfl (by decide)⟩

/-- A batch run over an existing directory never raises: it returns a
normal (ok) result. -/
theorem batch_ok_of_isDir (ω : Oracle) (env : Option String)
    (tmps : Nat → List String) (fs : FS) (d : List String)
    (odo td : Option (List String)) (exts : List String) (key : Option String)
    (vc : String) (kt ow : Bool) (hd : fs.isDir d = true) :
    ∃ l fs2, batch_process_videos ω env tmps fs d odo td exts key vc kt ow =
      (.ok l, fs2) := by
  unfold batch_process_videos
  rw [if_pos hd]
  exact ⟨_, _, rfl⟩

/-- C5 counterexample: with no credential supplied anywhere, the CLI
terminates through the argument parser with exit status 2 (the argparse
convention), not 1, refuting the claim that a missing credential exits
with status 1. -/
theorem cli_exit_cex :
    (main ωtest none tmps0 fs0 argsNoKey).1 = 2 ∧
    (main ωtest none tmps0 fs0 argsNoKey).1 ≠ 1 := by
  decide

/-- C5 amended: the CLI exits 0 on overall success, including a batch run
that completed with per-item failures logged; it exits 2 — through the
argument parser — when no non-empty credential resolves or when the input
path is of the wrong kind for the selected mode; and it exits 1 exactly
when an exception escapes the top-level processing call. -/
theorem cli_exit_codes (ω : Oracle) (env : Option String)
    (tmps : Nat → List String) (fs : FS) (args : Args) :
    (resolveKey args.api_key env = none ∨ resolveKey args.api_key env = some "" →
      main ω env tmps fs args = (2, fs)) ∧
    (∀ k, resolveKey args.api_key env = some k → k ≠ "" →
      (args.batch = true → fs.isDir args.input.asDir = false →
        main ω env tmps fs args = (2, fs)) ∧
      (args.batch = true → fs.isDir args.input.asDir = true →
        (main ω env tmps fs args).1 = 0) ∧
      (args.batch = false → fs.fileExists args.input = false →
        main ω env tmps fs args = (2, fs)) ∧
      (args.batch = false → fs.fileExists args.input = true →
        ∀ p, (process_video ω env (tmps 0) fs args.input args.output
            args.keep_temp (some k) args.video_codec args.overwrite).res = .ok p →
          (main ω env tmps fs args).1 = 0) ∧
      (args.batch = false → fs.fileExists args.input = true →
        ∀ e, (process_video ω env (tmps 0) fs args.input args.output
            args.keep_temp (some k) args.video_codec args.overwrite).res =
              .error e →
          (main ω env tmps fs args).1 = 1)) := by
  constructor
  · intro h
    unfold main
    rcases h with h | h <;> rw [h] <;> try rfl
  · intro k hk hkne
    refine ⟨?_, ?_, ?_, ?_, ?_⟩
    · intro hb hnd
      unfold main
      rw [hk]
      simp only []
      rw [if_neg hkne, hb, if_pos rfl, hnd]
      simp only [Bool.false_eq_true, if_false]
    · intro hb hd
      obtain ⟨l, fs2, hb2⟩ := batch_ok_of_isDir ω env tmps fs args.input.asDir
        (args.output.map FP.asDir) (args.temp_dir.map FP.asDir) video_extensions
        (some k) args.video_codec args.keep_temp args.overwrite hd
      unfold main
      rw [hk]
      simp only []
      rw [if_neg hkne, hb, if_pos rfl, if_pos hd, hb2]
    · intro hb hnf
      unfold main
      rw [hk]
      simp only []
      rw [if_neg hkne, hb, if_neg Bool.false_ne_true, hnf]
      simp only [Bool.false_eq_true, if_false]
    · intro hb hf p hres
      unfold main
      rw [hk]
      simp only []
      rw [if_neg hkne, hb, if_neg Bool.false_ne_true, if_pos hf, hres]
    · intro hb hf e hres
      unfold main
      rw [hk]
      simp only []
      rw [if_neg hkne, hb, if_neg Bool.false_ne_true, if_pos hf, hres]

/-- Witness for the amended C5: missing credential exits 2; a batch run
over an existing directory exits 0; a single-file run whose extraction
stage fails exits 1. -/
theorem cli_exit_codes_w :
    main ωtest none tmps0 fs0 argsNoKey = (2, fs0) ∧
    (main ωtest none tmps0 fsB argsBatch).1 = 0 ∧
    (main ωext none tmps0 fsV argsSingle).1 = 1 := by
  refine ⟨(cli_exit_codes ωtest none tmps0 fs0 argsNoKey).1 (Or.inl rfl), ?_, ?_⟩
  · exact ((cli_exit_codes ωtest none tmps0 fsB argsBatch).2 "k" rfl
      (by decide)).2.1 rfl (by decide)
  · exact ((cli_exit_codes ωext none tmps0 fsV argsSingle).2 "k" rfl
      (by decide)).2.2.2.2 rfl (by decide) (.toolError "ffmpeg failure") (by decide)

end VoiceIsolator
